import Mathlib

/-!
# HorizonFetch: a shallow embedding of `src/HorizonFetch.cpp`

The development follows the C++ source function by function.

* C++ `unsigned` values are natural numbers below `2 ^ 32`; every arithmetic
  operation of the source on them is reduced modulo `2 ^ 32` explicitly.
* `std::vector` is a `List`: `front` is the head, `back` the last element,
  `push_back` appends, `insert(begin(), x)` conses and `pop_back` is `dropLast`.
* `std::string` is a `List Char`, one `Char` per C++ `char`.
* The body of `main` from the creation of the handles on is a state machine
  (`MainState`, `step`): one step is one loop test or one execution of the
  body of the inner loop.  `thread.join()` is taken to return.
-/

namespace HorizonFetch

/-! ## Machine arithmetic -/

/-- Modulus of the C++ type `unsigned` (32 bits). -/
def UWord : Nat := 2 ^ 32

/-- Addition on `unsigned`. -/
def uadd (a b : Nat) : Nat := (a + b) % UWord

/-- Subtraction on `unsigned`. -/
def usub (a b : Nat) : Nat := (a % UWord + (UWord - b % UWord)) % UWord

/-- Multiplication on `unsigned`. -/
def umul (a b : Nat) : Nat := (a * b) % UWord

/-- Conversion of an `int` to `unsigned`. -/
def toUnsigned (a : Int) : Nat := (a % (UWord : Int)).toNat

/-- The constant `MaxConnections` of the source. -/
def MaxConnections : Nat := 2

/-! ## The orchestrator loop of `main` -/

/-- The four loop bounds of `main`: `year_min`, `year_max`, `cbody_min`, `cbody_max`. -/
structure Range where
  year_min : Nat
  year_max : Nat
  cbody_min : Nat
  cbody_max : Nat
  deriving DecidableEq, Repr

/-- The value `year_count = year_max - year_min + 1` of `main`. -/
def year_count (r : Range) : Nat := uadd (usub r.year_max r.year_min) 1

/-- The value `cbody_count = cbody_max - cbody_min + 1` of `main`. -/
def cbody_count (r : Range) : Nat := uadd (usub r.cbody_max r.cbody_min) 1

/-- The value `request_count = year_count * cbody_count` of `main`. -/
def request_count (r : Range) : Nat := umul (year_count r) (cbody_count r)

/-- Number of handles `main` creates: `std::min(request_count, MaxConnections)`. -/
def handle_count (r : Range) : Nat := min (request_count r) MaxConnections

/-- The part of a `jau::io::AsyncStreamResponse` the orchestrator uses: the handle
it owns, the cell its callback captured (`year`, `planetIdx`), and the ordinal of
the `read_url_stream_async` call that created it. -/
structure AsyncStreamResponse where
  handle : Nat
  submitted : Nat
  year : Nat
  planetIdx : Nat
  deriving DecidableEq, Repr

/-- The lambda `get_free_handle` of `main`, on the two vectors it captures.  It
returns the handle and the two vectors as it leaves them; `none` stands for the
undefined behaviour of `responses.back()` on an empty vector. -/
def get_free_handle (free_handles : List Nat) (responses : List AsyncStreamResponse) :
    Option (Nat × List Nat × List AsyncStreamResponse) :=
  if free_handles.length = 0 then
    match responses.getLast? with
    | none => none
    | some r => some (r.handle, free_handles, responses.dropLast)
  else
    match free_handles.getLast? with
    | none => none
    | some handle => some (handle, free_handles.dropLast, responses)

/-- One issued request, as `main` reports it on `std::cerr`: the value of
`request_idx`, the loop variables, and the two indices `year - year_min` and
`planetIdx - cbody_min` of the grid cell the request writes to. -/
structure Issued where
  request_idx : Nat
  year : Nat
  planetIdx : Nat
  setIdx : Nat
  cbodyIdx : Nat
  deriving DecidableEq, Repr

/-- Control points of the orchestrator part of `main`. -/
inductive Pc where
  | yearLoop
  | planetLoop
  | drain
  | undefinedBehaviour
  deriving DecidableEq, Repr

/-- The variables of `main` the orchestrator loop works on. -/
structure MainState where
  pc : Pc
  year : Nat
  planetIdx : Nat
  free_handles : List Nat
  responses : List AsyncStreamResponse
  issued : List Issued
  calls : Nat
  deriving DecidableEq, Repr

/-- State of `main` when the outer loop is entered: `handle_count` handles,
numbered in the order of their creation, are in `free_handles`. -/
def initState (r : Range) : MainState :=
  { pc := Pc.yearLoop, year := r.year_min, planetIdx := 0,
    free_handles := List.range (handle_count r), responses := [],
    issued := [], calls := 0 }

/-- The value of `request_idx` in the body of the inner loop. -/
def request_idx (r : Range) (year planetIdx : Nat) : Nat :=
  uadd (uadd (umul (usub year r.year_min) (cbody_count r)) (usub planetIdx r.cbody_min)) 1

/-- The body of the inner loop followed by `++planetIdx`.  `nonNull k` tells
whether the `k`-th call of `read_url_stream_async` returned a non-null response. -/
def loopBody (r : Range) (nonNull : Nat → Bool) (s : MainState) : MainState :=
  match get_free_handle s.free_handles s.responses with
  | none => { s with pc := Pc.undefinedBehaviour }
  | some (handle, free_handles, responses) =>
    let response : AsyncStreamResponse :=
      { handle := handle, submitted := s.calls, year := s.year, planetIdx := s.planetIdx }
    { s with
      free_handles := free_handles
      responses := if nonNull s.calls then response :: responses else responses
      issued := s.issued ++ [{ request_idx := request_idx r s.year s.planetIdx,
                               year := s.year, planetIdx := s.planetIdx,
                               setIdx := usub s.year r.year_min,
                               cbodyIdx := usub s.planetIdx r.cbody_min }]
      calls := s.calls + 1
      planetIdx := uadd s.planetIdx 1 }

/-- One step of the two nested `for` loops of `main`. -/
def step (r : Range) (nonNull : Nat → Bool) (s : MainState) : MainState :=
  match s.pc with
  | Pc.yearLoop =>
    if s.year ≤ r.year_max then { s with planetIdx := r.cbody_min, pc := Pc.planetLoop }
    else { s with pc := Pc.drain }
  | Pc.planetLoop =>
    if s.planetIdx ≤ r.cbody_max then loopBody r nonNull s
    else { s with year := uadd s.year 1, pc := Pc.yearLoop }
  | Pc.drain => s
  | Pc.undefinedBehaviour => s

/-- The state of `main` after `n` steps of the nested loops. -/
def run (r : Range) (nonNull : Nat → Bool) : Nat → MainState
  | 0 => initState r
  | n + 1 => step r nonNull (run r nonNull n)

/-- A range `main` works on without wrap-around of its `unsigned` variables. -/
def Range.Valid (r : Range) : Prop :=
  1 ≤ r.year_min ∧ r.year_min ≤ r.year_max ∧ r.cbody_min ≤ r.cbody_max ∧
  r.year_max + 1 < UWord ∧ r.cbody_max + 1 < UWord ∧
  (r.year_max - r.year_min + 1) * (r.cbody_max - r.cbody_min + 1) < UWord

instance (r : Range) : Decidable r.Valid := by
  unfold Range.Valid; infer_instance

/-- The defaults of `main`: years 2014 to 2024, bodies 1 to 9. -/
def defaultRange : Range :=
  { year_min := 2014, year_max := 2024, cbody_min := 1, cbody_max := 9 }

/-! ## Invariants of the handle pool -/

/-- What holds of the pool between two steps of the loops: each created handle
is in `free_handles` or in exactly one element of `responses`, `responses` is
ordered newest first, and no undefined behaviour was met. -/
structure PoolInv (r : Range) (s : MainState) : Prop where
  owned : (s.free_handles ++ s.responses.map AsyncStreamResponse.handle).Perm
    (List.range (handle_count r))
  newestFirst : s.responses.Pairwise (fun a b => b.submitted < a.submitted)
  before : ∀ a ∈ s.responses, a.submitted < s.calls
  defined : s.pc ≠ Pc.undefinedBehaviour

/-! ## The row-major enumeration of the grid -/

/-- The `k`-th cell of the grid in row-major order (year outer, body inner),
with the request index `k + 1`. -/
def cellAt (r : Range) (k : Nat) : Issued :=
  { request_idx := k + 1,
    year := r.year_min + k / cbody_count r,
    planetIdx := r.cbody_min + k % cbody_count r,
    setIdx := k / cbody_count r,
    cbodyIdx := k % cbody_count r }

/-- The first `m` cells of the grid in row-major order. -/
def rowMajor (r : Range) (m : Nat) : List Issued := (List.range m).map (cellAt r)

/-- What holds of the loop variables and of the requests issued so far, at each
control point. -/
def LogInv (r : Range) (s : MainState) : Prop :=
  match s.pc with
  | Pc.yearLoop =>
    r.year_min ≤ s.year ∧ s.year ≤ r.year_max + 1 ∧
    s.issued = rowMajor r ((s.year - r.year_min) * cbody_count r)
  | Pc.planetLoop =>
    r.year_min ≤ s.year ∧ s.year ≤ r.year_max ∧
    r.cbody_min ≤ s.planetIdx ∧ s.planetIdx ≤ r.cbody_max + 1 ∧
    s.issued = rowMajor r ((s.year - r.year_min) * cbody_count r + (s.planetIdx - r.cbody_min))
  | Pc.drain => s.issued = rowMajor r (year_count r * cbody_count r)
  | Pc.undefinedBehaviour => False

/-- Number of steps the loops still take from a state. -/
def stepsLeft (r : Range) (s : MainState) : Nat :=
  match s.pc with
  | Pc.yearLoop => (r.year_max + 1 - s.year) * (cbody_count r + 2) + 1
  | Pc.planetLoop =>
    (r.cbody_max + 1 - s.planetIdx) + 1 + (r.year_max - s.year) * (cbody_count r + 2) + 1
  | Pc.drain => 0
  | Pc.undefinedBehaviour => 0

/-! ## `std::regex`, as far as `PosPattern` and `VeloPattern` use it

Both patterns are sequences of single characters and character classes, each
taken once or under one of the quantifiers `?`, `*`, `+`, with three capture
groups that are not nested.  `regex_search` is the backtracking matcher of the
ECMAScript grammar: the leftmost start position at which the pattern matches,
greedy quantifiers first. -/

/-- One element of a pattern. -/
inductive Item where
  | one (p : Char → Bool)
  | opt (p : Char → Bool)
  | star (p : Char → Bool)
  | plus (p : Char → Bool)
  | openGroup
  | closeGroup

/-- The capture groups while a match is under way: the groups closed so far and
the text of the group that is open, if one is. -/
structure Caps where
  closed : List (List Char)
  current : Option (List Char)
  deriving DecidableEq, Repr

/-- No group closed, none open. -/
def Caps.init : Caps := { closed := [], current := none }

/-- The matcher consumes the character `c`. -/
def Caps.take (cs : Caps) (c : Char) : Caps :=
  { cs with current := cs.current.map (fun w => w ++ [c]) }

/-- The matcher consumes the characters `u`, one after the other. -/
def Caps.takeAll (cs : Caps) : List Char → Caps
  | [] => cs
  | c :: u => (cs.take c).takeAll u

/-- A capture group opens. -/
def Caps.openGroup (cs : Caps) : Caps := { cs with current := some [] }

/-- The open capture group closes. -/
def Caps.closeGroup (cs : Caps) : Caps :=
  { closed := cs.closed ++ [cs.current.getD []], current := none }

/-- The greedy loop of `p*` followed by the continuation `k`: as many characters
of the class as possible first, one fewer when the continuation fails. -/
def starLoop (p : Char → Bool) (k : List Char → Caps → Option (Caps × List Char)) :
    List Char → Caps → Option (Caps × List Char)
  | [], cs => k [] cs
  | c :: s, cs =>
    if p c then
      match starLoop p k s (cs.take c) with
      | some x => some x
      | none => k (c :: s) cs
    else k (c :: s) cs

/-- The backtracking matcher at a fixed start: the capture groups and the text
left over after the match of highest priority, if the pattern matches here. -/
def matchItems : List Item → List Char → Caps → Option (Caps × List Char)
  | [] => fun s cs => some (cs, s)
  | Item.one p :: items => fun s cs =>
    match s with
    | [] => none
    | c :: s => if p c then matchItems items s (cs.take c) else none
  | Item.opt p :: items => fun s cs =>
    match s with
    | [] => matchItems items [] cs
    | c :: s =>
      if p c then
        match matchItems items s (cs.take c) with
        | some x => some x
        | none => matchItems items (c :: s) cs
      else matchItems items (c :: s) cs
  | Item.star p :: items => fun s cs => starLoop p (matchItems items) s cs
  | Item.plus p :: items => fun s cs =>
    match s with
    | [] => none
    | c :: s => if p c then starLoop p (matchItems items) s (cs.take c) else none
  | Item.openGroup :: items => fun s cs => matchItems items s cs.openGroup
  | Item.closeGroup :: items => fun s cs => matchItems items s cs.closeGroup

/-- The part of a `std::smatch` that `getPosVelo` reads: `position()` and the
sub-matches `[1]`, `[2]`, ...; `size()` counts the whole match as well. -/
structure SMatch where
  position : Nat
  groups : List (List Char)
  deriving DecidableEq, Repr

/-- The member `size()`. -/
def SMatch.size (m : SMatch) : Nat := 1 + m.groups.length

/-- The sub-match `m[i].str()` for `i ≥ 1`. -/
def SMatch.str (m : SMatch) (i : Nat) : List Char := m.groups.getD (i - 1) []

/-- Search from position `pos` on, where `s` is the text from `pos`. -/
def searchFrom (re : List Item) : Nat → List Char → Option SMatch
  | pos, [] =>
    match matchItems re [] Caps.init with
    | some (cs, _) => some { position := pos, groups := cs.closed }
    | none => none
  | pos, c :: s =>
    match matchItems re (c :: s) Caps.init with
    | some (cs, _) => some { position := pos, groups := cs.closed }
    | none => searchFrom re (pos + 1) s

/-- The call `std::regex_search(data, match, re)`: `none` is the result `false`. -/
def regex_search (data : List Char) (re : List Item) : Option SMatch := searchFrom re 0 data

/-- The literal character `c`. -/
def lit (c : Char) : Item := Item.one (fun x => x == c)

/-- The class of the blank, quantified by `*` in the patterns. -/
def blank (c : Char) : Bool := c == ' '

/-- The class `[\-\+]` (and `[\+\-]`). -/
def sign (c : Char) : Bool := c == '-' || c == '+'

/-- The class `\d`. -/
def digit (c : Char) : Bool := c.isDigit

/-- The group `([\-\+]?\d+\.\d+E[\+\-]\d\d)`. -/
def numGroup : List Item :=
  [Item.openGroup, Item.opt sign, Item.plus digit, lit '.', Item.plus digit, lit 'E',
   Item.one sign, Item.one digit, Item.one digit, Item.closeGroup]

/-- The text ` *= *` followed by the number group. -/
def equalsNum : List Item := [Item.star blank, lit '=', Item.star blank] ++ numGroup

/-- The regular expression `PosPattern`. -/
def PosPattern : List Item :=
  [lit 'X'] ++ equalsNum ++ [Item.star blank, lit 'Y'] ++ equalsNum
    ++ [Item.star blank, lit 'Z'] ++ equalsNum

/-- The regular expression `VeloPattern`. -/
def VeloPattern : List Item :=
  [lit 'V', lit 'X'] ++ equalsNum ++ [Item.star blank, lit 'V', lit 'Y'] ++ equalsNum
    ++ [Item.star blank, lit 'V', lit 'Z'] ++ equalsNum

/-- The function `getPosVelo`.  The type `α` stands for `double`, `zero` for the
value `memset` leaves, `atof` for the library function; the result is the
returned `bool` with the arrays `pos` and `velo` as the function leaves them. -/
def getPosVelo {α : Type} (atof : List Char → α) (zero : α) (data : List Char) :
    Bool × (α × α × α) × (α × α × α) :=
  let matchCount : Nat := 0
  let pos : α × α × α := (zero, zero, zero)
  let velo : α × α × α := (zero, zero, zero)
  let (pos, matchCount) :=
    match regex_search data PosPattern with
    | some m =>
      if 4 = m.size then ((atof (m.str 1), atof (m.str 2), atof (m.str 3)), matchCount + 1)
      else (pos, matchCount)
    | none => (pos, matchCount)
  let (velo, matchCount) :=
    match regex_search data VeloPattern with
    | some m =>
      if 4 = m.size then ((atof (m.str 1), atof (m.str 2), atof (m.str 3)), matchCount + 1)
      else (velo, matchCount)
    | none => (velo, matchCount)
  (decide (2 = matchCount), pos, velo)

/-! ## The language of a pattern

`Denote items cs w cs1` says that the text `w` is in the language of `items`:
it is cut into one piece per item, a single character of the class for `one`,
none or one for `opt`, any number for `star`, at least one for `plus`; the
capture groups go from `cs` to `cs1` on the way.  It says nothing about the
order in which a matcher tries the alternatives. -/

/-- The text `w` is a match of `items`, taking the capture groups from `cs` to `cs1`. -/
def Denote : List Item → Caps → List Char → Caps → Prop
  | [], cs, w, cs1 => w = [] ∧ cs1 = cs
  | Item.one p :: items, cs, w, cs1 =>
    ∃ c v, w = c :: v ∧ p c = true ∧ Denote items (cs.take c) v cs1
  | Item.opt p :: items, cs, w, cs1 =>
    Denote items cs w cs1 ∨ ∃ c v, w = c :: v ∧ p c = true ∧ Denote items (cs.take c) v cs1
  | Item.star p :: items, cs, w, cs1 =>
    ∃ u v, w = u ++ v ∧ (∀ c ∈ u, p c = true) ∧ Denote items (cs.takeAll u) v cs1
  | Item.plus p :: items, cs, w, cs1 =>
    ∃ u v, w = u ++ v ∧ u ≠ [] ∧ (∀ c ∈ u, p c = true) ∧ Denote items (cs.takeAll u) v cs1
  | Item.openGroup :: items, cs, w, cs1 => Denote items cs.openGroup w cs1
  | Item.closeGroup :: items, cs, w, cs1 => Denote items cs.closeGroup w cs1

/-- Every match of `items` begins with a character outside the class `p`. -/
def Excl (p : Char → Bool) : List Item → Prop
  | [] => False
  | Item.one q :: _ => ∀ c, q c = true → p c = false
  | Item.plus q :: _ => ∀ c, q c = true → p c = false
  | Item.opt q :: items => (∀ c, q c = true → p c = false) ∧ Excl p items
  | Item.star q :: items => (∀ c, q c = true → p c = false) ∧ Excl p items
  | Item.openGroup :: items => Excl p items
  | Item.closeGroup :: items => Excl p items

/-- No quantified class of the pattern can take a character with which the rest
of the pattern may begin: the pattern leaves the matcher no choice. -/
def Det : List Item → Prop
  | [] => True
  | Item.one _ :: items => Det items
  | Item.opt p :: items => Excl p items ∧ Det items
  | Item.star p :: items => Excl p items ∧ Det items
  | Item.plus p :: items => Excl p items ∧ Det items
  | Item.openGroup :: items => Det items
  | Item.closeGroup :: items => Det items

/-! ## The two patterns in words

The description the specification gives of the patterns: a position block is
`X = <num> Y = <num> Z = <num>`, a velocity block `VX = <num> VY = <num>
VZ = <num>`, blanks being optional around each `=` and between the
assignments, and `<num>` is `[-+]?digits.digitsE[+-]dd`. -/

/-- The text `w` is a number `[-+]?digits.digitsE[+-]dd`. -/
def IsNum (w : List Char) : Prop :=
  ∃ sg ip fp es d1 d2, w = sg ++ ip ++ '.' :: fp ++ ['E', es, d1, d2] ∧
    (sg = [] ∨ sg = ['-'] ∨ sg = ['+']) ∧
    ip ≠ [] ∧ (∀ c ∈ ip, c.isDigit = true) ∧
    fp ≠ [] ∧ (∀ c ∈ fp, c.isDigit = true) ∧
    (es = '+' ∨ es = '-') ∧ d1.isDigit = true ∧ d2.isDigit = true

/-- The text `w` consists of blanks. -/
def Blanks (w : List Char) : Prop := ∀ c ∈ w, c = ' '

/-- The text `w` is `name = num`: the name, blanks, `=`, blanks, the number `num`. -/
def IsAssign (name w num : List Char) : Prop :=
  ∃ b1 b2, w = name ++ b1 ++ '=' :: b2 ++ num ∧ Blanks b1 ∧ Blanks b2 ∧ IsNum num

/-- The text `w` is three assignments to the names `n1`, `n2`, `n3`, with blanks
between them, of the numbers `g1`, `g2`, `g3`. -/
def IsTriple (n1 n2 n3 w g1 g2 g3 : List Char) : Prop :=
  ∃ a1 b1 a2 b2 a3, w = a1 ++ b1 ++ a2 ++ b2 ++ a3 ∧
    IsAssign n1 a1 g1 ∧ Blanks b1 ∧ IsAssign n2 a2 g2 ∧ Blanks b2 ∧ IsAssign n3 a3 g3

/-- The text `w` is a position block `X = g1 Y = g2 Z = g3`. -/
def PosBlock (w g1 g2 g3 : List Char) : Prop := IsTriple ['X'] ['Y'] ['Z'] w g1 g2 g3

/-- The text `w` is a velocity block `VX = g1 VY = g2 VZ = g3`. -/
def VeloBlock (w g1 g2 g3 : List Char) : Prop :=
  IsTriple ['V', 'X'] ['V', 'Y'] ['V', 'Z'] w g1 g2 g3

/-- The text `data` contains a block of the kind `B` starting at position `n`,
with the numbers `g1`, `g2`, `g3`. -/
def BlockAt (B : List Char → List Char → List Char → List Char → Prop)
    (data : List Char) (n : Nat) (g1 g2 g3 : List Char) : Prop :=
  ∃ pre w post, data = pre ++ w ++ post ∧ pre.length = n ∧ B w g1 g2 g3

/-- The text `data` contains a block of the kind `B`. -/
def Contains (B : List Char → List Char → List Char → List Char → Prop)
    (data : List Char) : Prop :=
  ∃ n g1 g2 g3, BlockAt B data n g1 g2 g3

/-! ## The number a literal denotes

`getPosVelo` is stated for any conversion `atof`.  For the example of the
specification the conversion is the exact one: a literal
`[-+]?digits.digitsE[+-]dd` denotes a rational number (the rounding of `atof`
to a `double` is not part of the development). -/

/-- The parts of a literal `[-+]?digits.digitsE[+-]dd`: its sign, the number its
digits before and after the point spell, how many digits follow the point, the
sign of the exponent and the exponent. -/
structure Literal where
  negative : Bool
  digits : Nat
  fraction : Nat
  expNegative : Bool
  exponent : Nat
  deriving DecidableEq, Repr

/-- The number a text of decimal digits spells. -/
def digitsValue (ds : List Char) : Nat :=
  ds.foldl (fun n c => 10 * n + (c.toNat - '0'.toNat)) 0

/-- Reading of a literal `[-+]?digits.digitsE[+-]dd`. -/
def parseLiteral (w : List Char) : Literal :=
  let body := match w with
    | '-' :: t => t
    | '+' :: t => t
    | t => t
  let ip := body.takeWhile Char.isDigit
  let afterPoint := (body.dropWhile Char.isDigit).drop 1
  let fp := afterPoint.takeWhile Char.isDigit
  let ex := (afterPoint.dropWhile Char.isDigit).drop 1
  { negative := decide (w.head? = some '-'),
    digits := digitsValue (ip ++ fp),
    fraction := fp.length,
    expNegative := decide (ex.head? = some '-'),
    exponent := digitsValue (ex.drop 1) }

/-- The rational number a literal denotes. -/
def Literal.value (l : Literal) : ℚ :=
  let m : ℚ := (l.digits : ℚ) / 10 ^ l.fraction
  let v : ℚ := if l.expNegative then m / 10 ^ l.exponent else m * 10 ^ l.exponent
  if l.negative then -v else v

/-- The exact conversion of a literal to the number it denotes. -/
def literalValue (w : List Char) : ℚ := (parseLiteral w).value

/-- The example text of the specification. -/
def exampleText : List Char :=
  ("...X =1.234567890123E+08 Y =-2.345678901234E+07 Z = 3.456789012345E+06... "
    ++ "VX = 1.0E-02 VY =-2.0E-03 VZ = 3.0E-04").toList

/-! ## The result grid and the callback of a request -/

/-- The struct `CBodyData`; `α` stands for `double`. -/
structure CBodyData (α : Type) where
  id : Nat
  position : α × α × α
  velocity : α × α × α

/-- The struct `SolarData`. -/
structure SolarData (α : Type) where
  time_s : List Char
  time_u : Int
  planets : List (CBodyData α)

/-- The struct `SolarDataSet`. -/
structure SolarDataSet (α : Type) where
  setCount : Nat
  planetCount : Nat
  set : List (SolarData α)

/-- The six assignments to `cbody.position` and `cbody.velocity`, where `cbody`
is the element `set[setIdx].planets[cbodyIdx]` of the grid. -/
def writeCell {α : Type} (ds : SolarDataSet α) (setIdx cbodyIdx : Nat)
    (pos velo : α × α × α) : SolarDataSet α :=
  { ds with
    set := List.modify
      (fun sd => { sd with
        planets := List.modify (fun cb => { cb with position := pos, velocity := velo })
          cbodyIdx sd.planets })
      setIdx ds.set }

/-- The cell `set[setIdx].planets[cbodyIdx]` of the grid, when it exists. -/
def cellOf {α : Type} (ds : SolarDataSet α) (setIdx cbodyIdx : Nat) : Option (CBodyData α) :=
  match ds.set[setIdx]? with
  | some sd => sd.planets[cbodyIdx]?
  | none => none

/-- What the callback of a request can change: the text `result_text` of its
response, the two counters and the grid. -/
structure CallbackState (α : Type) where
  result_text : List Char
  requestCompletedCount : Nat
  requestErrorCount : Nat
  solarDataSets : SolarDataSet α

/-- One call of the callback by the transport: the state of the response header
(`header_resp.completed()`, `header_resp.response_code()`) and the arguments
`data0` (`none` for `nullptr`; `len0` is the length of the data) and `is_final0`. -/
structure Chunk where
  completed : Bool
  response_code : Int
  data0 : Option (List Char)
  is_final0 : Bool
  deriving DecidableEq, Repr

/-- The value of `ok` in the callback. -/
def Chunk.ok (ch : Chunk) : Bool := ch.completed && decide (200 = ch.response_code)

/-- The lambda passed to `read_url_stream_async` for the cell
`set[setIdx].planets[cbodyIdx]`: the returned `bool` and the state it leaves. -/
def callback {α : Type} (atof : List Char → α) (zero : α) (setIdx cbodyIdx : Nat)
    (ch : Chunk) (st : CallbackState α) : Bool × CallbackState α :=
  if !ch.ok then
    (false, { st with requestErrorCount := uadd st.requestErrorCount 1 })
  else
    let st1 : CallbackState α :=
      match ch.data0 with
      | some data => if data.length > 0 then { st with result_text := st.result_text ++ data }
                     else st
      | none => st
    if ch.is_final0 then
      let st2 : CallbackState α :=
        if st1.result_text.length > 0 then
          match getPosVelo atof zero st1.result_text with
          | (res, pos, velo) =>
            if res then
              { st1 with solarDataSets := writeCell st1.solarDataSets setIdx cbodyIdx pos velo }
            else st1
        else st1
      (true, { st2 with requestCompletedCount := uadd st2.requestCompletedCount 1 })
    else (true, st1)

/-- A request as the transport serves it: its cell and the calls of its callback
that the transport has in store. -/
structure Request where
  setIdx : Nat
  cbodyIdx : Nat
  chunks : List Chunk
  deriving DecidableEq, Repr

/-- Modelled from the spec: the transport `jau::io::read_url_stream_async` is not
part of the repository.  Following the state machine of an AsyncRequest, it calls
the callback once per chunk, in order, and stops after the final chunk or as soon
as the callback returns `false`. -/
def deliver {α : Type} (atof : List Char → α) (zero : α) (setIdx cbodyIdx : Nat) :
    List Chunk → CallbackState α → CallbackState α
  | [], st => st
  | ch :: rest, st =>
    match callback atof zero setIdx cbodyIdx ch st with
    | (continue_, st1) =>
      if continue_ && !ch.is_final0 then deliver atof zero setIdx cbodyIdx rest st1 else st1

/-- The state in which a request ends. -/
inductive Outcome where
  | succeeded
  | failed
  | pending
  deriving DecidableEq, Repr

/-- Modelled from the spec: the terminal state of a request is `Failed` when a
call finds a header that is not a completed 200, `Succeeded` when the final chunk
is reached before that; a request whose chunks end before either is not terminal. -/
def outcome : List Chunk → Outcome
  | [] => Outcome.pending
  | ch :: rest =>
    if !ch.ok then Outcome.failed
    else if ch.is_final0 then Outcome.succeeded
    else outcome rest

/-- A full run, one request after the other: each response starts with an empty
`result_text`; the counters and the grid are shared. -/
def runRequests {α : Type} (atof : List Char → α) (zero : α) :
    List Request → CallbackState α → CallbackState α
  | [], st => st
  | rq :: rest, st =>
    runRequests atof zero rest
      (deliver atof zero rq.setIdx rq.cbodyIdx rq.chunks { st with result_text := [] })

/-- Number of requests of a run that end in the state `o`. -/
def countOutcome (o : Outcome) (rqs : List Request) : Nat :=
  (rqs.filter (fun rq => decide (outcome rq.chunks = o))).length

/-- The state of `main` before the first request: both counters are zero. -/
def startState {α : Type} (ds : SolarDataSet α) : CallbackState α :=
  { result_text := [], requestCompletedCount := 0, requestErrorCount := 0, solarDataSets := ds }

/-- A grid of one year and one body, all fields zero. -/
def oneCellGrid : SolarDataSet ℚ :=
  { setCount := 1, planetCount := 1,
    set := [{ time_s := [], time_u := 0,
              planets := [{ id := 199, position := (0, 0, 0), velocity := (0, 0, 0) }] }] }

/-- A request answered with the status 404. -/
def notFoundRequest : Request :=
  { setIdx := 0, cbodyIdx := 0,
    chunks := [{ completed := true, response_code := 404, data0 := none, is_final0 := true }] }

/-- A final chunk of a response with the status 404, carrying an error page. -/
def notFoundChunk : Chunk :=
  { completed := true, response_code := 404, data0 := some "Not Found".toList,
    is_final0 := true }

/-- A final chunk of a 200 response whose text has a position block and no
velocity block. -/
def positionOnlyChunk : Chunk :=
  { completed := true, response_code := 200,
    data0 := some "X = 1.0E+00 Y = 2.0E+00 Z = 3.0E+00".toList, is_final0 := true }

/-! ## `getCommand` -/

/-- The constant `ObjectIdMark`. -/
def ObjectIdMark : List Char := "OBJECT_ID".toList

/-- The constant `ObjectDateMark`. -/
def ObjectDateMark : List Char := "OBJECT_DATE".toList

/-- The constant `HorizonCmdTemplate`. -/
def HorizonCmdTemplate : List Char :=
  "!$$SOF\nCOMMAND='".toList ++ ObjectIdMark
    ++ "'\nTABLE_TYPE='Vector'\nCENTER='@010'\nREF_PLANE='Ecliptic'\nSTART_TIME='".toList
    ++ ObjectDateMark ++ " 00:00:00'\nSTOP_TIME='".toList
    ++ ObjectDateMark ++ " 00:00:01'\n".toList

/-- Offset of the first occurrence of `pat` in `s`. -/
def findIn (pat : List Char) : List Char → Option Nat
  | [] => if pat.isPrefixOf [] then some 0 else none
  | c :: s =>
    if pat.isPrefixOf (c :: s) then some 0 else (findIn pat s).map (fun i => i + 1)

/-- The member `s.find(pat, pos)` of `std::string`; `none` is `npos`. -/
def find (s pat : List Char) (pos : Nat) : Option Nat :=
  if pos > s.length then none else (findIn pat (s.drop pos)).map (fun i => i + pos)

/-- The member `s.replace(idx, len, str)` of `std::string`. -/
def replace (s : List Char) (idx len : Nat) (str : List Char) : List Char :=
  s.take idx ++ str ++ s.drop (idx + len)

/-- The `while (true)` loop of `getCommand`, with `fuel` bounding the number of
times the loop test is reached; `none` when the fuel runs out. -/
def replaceDates (objectDate : List Char) : Nat → List Char → Nat → Option (List Char)
  | 0, _, _ => none
  | fuel + 1, s, idx =>
    match find s ObjectDateMark idx with
    | none => some s
    | some idx =>
      replaceDates objectDate fuel (replace s idx ObjectDateMark.length objectDate)
        (idx + objectDate.length)

/-- The function `getCommand`; the empty text is its error result, `none` stands
for a loop that does not end within `fuel` tests. -/
def getCommand (fuel : Nat) (objectID objectDate : List Char) : Option (List Char) :=
  let s := HorizonCmdTemplate
  match find s ObjectIdMark 0 with
  | none => some []
  | some idx => replaceDates objectDate fuel (replace s idx ObjectIdMark.length objectID) 0

/-- Number of positions of `s` at which `pat` occurs. -/
def occurrences (pat : List Char) : List Char → Nat
  | [] => 0
  | c :: s => (if pat.isPrefixOf (c :: s) then 1 else 0) + occurrences pat s

/-- The texts `pat` and `s` agree as far as both reach. -/
def agree : List Char → List Char → Bool
  | [], _ => true
  | _, [] => true
  | a :: pat, b :: s => a == b && agree pat s

/-- No occurrence of `pat` can begin inside `pre`, whatever text follows `pre`. -/
def clearOf (pat : List Char) : List Char → Bool
  | [] => true
  | c :: pre => !agree pat (c :: pre) && clearOf pat pre

/-- No occurrence of `ObjectDateMark` begins inside `q`, whatever text follows:
a search that starts at `q` goes on behind it. -/
def Skippable (q : List Char) : Prop :=
  ∀ rest, findIn ObjectDateMark (q ++ rest)
    = (findIn ObjectDateMark rest).map (fun i => i + q.length)

/-! ## The arguments of `main` -/

/-- How the check of the arguments ends: `main` returns with a status, or goes
on with the ranges. -/
inductive ArgCheck where
  | exit (status : Int)
  | proceed (r : Range)
  deriving DecidableEq, Repr

/-- The block `if( argc >= 1+3 )` of `main`, on the three values `atoi` returns
for `argv[1]`, `argv[2]`, `argv[3]`: they are stored in `unsigned` variables,
`cbody_max = cbody_min + cbc - 1`, and the ranges are tested. -/
def mainArgs (a1 a2 a3 : Int) : ArgCheck :=
  let year_min : Nat := toUnsigned a1
  let year_max : Nat := toUnsigned a2
  let cbody_min : Nat := 1
  let cbc : Nat := toUnsigned a3
  let cbody_max : Nat := usub (uadd cbody_min cbc) 1
  if year_max ≥ year_min ∧ year_min > 0 ∧ cbody_max ≥ cbody_min then
    ArgCheck.proceed
      { year_min := year_min, year_max := year_max, cbody_min := cbody_min,
        cbody_max := cbody_max }
  else ArgCheck.exit 1

/-! ## The request of a cell -/

/-- The conversion `%W.Wu` of `snprintf`: the decimal digits of `n`, with zeros in
front up to `width` digits. -/
def paddedDecimal (width n : Nat) : List Char :=
  List.replicate (width - (Nat.toDigits 10 n).length) '0' ++ Nat.toDigits 10 n

/-- The function `toString(unsigned year, unsigned month, unsigned day)`: the
text `yyyy-mm-dd`, cut to the ten characters of the buffer. -/
def toStringDate (year month day : Nat) : List Char :=
  (paddedDecimal 4 year ++ ['-'] ++ paddedDecimal 2 month ++ ['-']
    ++ paddedDecimal 2 day).take 10

/-- The function `toCBodyID`. -/
def toCBodyID (planetIdx : Nat) : Nat := uadd (umul planetIdx 100) 99 % 1000

/-- The function `toBarycenterID`. -/
def toBarycenterID (planetIdx : Nat) : Nat := planetIdx % 10

/-- The function `toString(unsigned planetIdx)`: the value
`((planetIdx * 100) + 99) % 1000` printed with `%3.3u`, cut to the three
characters of the buffer. -/
def toStringID (planetIdx : Nat) : List Char :=
  (paddedDecimal 3 (uadd (umul planetIdx 100) 99 % 1000)).take 3

/-- What the body of the inner loop of `main` prepares for the cell of `year` and
`planetIdx`: the value stored in `cbody.id`, the texts `objectDate` and
`objectID`, and the command `cmd` that goes into the request. -/
structure CellRequest where
  id : Nat
  objectDate : List Char
  objectID : List Char
  cmd : Option (List Char)
  deriving DecidableEq, Repr

/-- The statements of the loops of `main` that set `cbody.id`, `objectDate`,
`objectID` and `cmd`; `fuel` is the fuel of `getCommand`. -/
def cellRequest (fuel : Nat) (useBarycenter : Bool) (year planetIdx : Nat) : CellRequest :=
  let objectDate := toStringDate year 1 1
  let id := if useBarycenter then toBarycenterID planetIdx else toCBodyID planetIdx
  let objectID := toStringID planetIdx
  let cmd := getCommand fuel objectID objectDate
  { id := id, objectDate := objectDate, objectID := objectID, cmd := cmd }

/-! # Lemmas -/

theorem poolInv_init (r : Range) : PoolInv r (initState r) := by
  refine ⟨?_, ?_, ?_, ?_⟩ <;> simp [initState]

/-- With an empty pool and at least one handle created, `get_free_handle` pops
the last element of `responses`. -/
theorem get_free_handle_empty {r : Range} {s : MainState} (hk : 0 < handle_count r)
    (hinv : PoolInv r s) (hfree : s.free_handles = []) :
    ∃ q, s.responses.getLast? = some q ∧ s.responses = s.responses.dropLast ++ [q] ∧
      get_free_handle s.free_handles s.responses
        = some (q.handle, [], s.responses.dropLast) := by
  have hne : s.responses ≠ [] := by
    intro h
    have hp := hinv.owned.length_eq
    simp [hfree, h] at hp
    omega
  obtain ⟨q, hq⟩ : ∃ q, s.responses.getLast? = some q := by
    cases hl : s.responses.getLast? with
    | none => exact absurd (List.getLast?_eq_none_iff.mp hl) hne
    | some q => exact ⟨q, rfl⟩
  refine ⟨q, hq, (List.dropLast_append_getLast? q hq).symm, ?_⟩
  simp [get_free_handle, hfree, hq]

/-- With a non-empty pool, `get_free_handle` pops the last free handle. -/
theorem get_free_handle_nonempty {s : MainState} (hfree : s.free_handles ≠ []) :
    ∃ h, s.free_handles = s.free_handles.dropLast ++ [h] ∧
      get_free_handle s.free_handles s.responses
        = some (h, s.free_handles.dropLast, s.responses) := by
  obtain ⟨h, hh⟩ : ∃ h, s.free_handles.getLast? = some h := by
    cases hl : s.free_handles.getLast? with
    | none => exact absurd (List.getLast?_eq_none_iff.mp hl) hfree
    | some h => exact ⟨h, rfl⟩
  refine ⟨h, (List.dropLast_append_getLast? h hh).symm, ?_⟩
  have : s.free_handles.length ≠ 0 := by
    intro h0; exact hfree (List.length_eq_zero.mp h0)
  simp [get_free_handle, this, hh]

theorem poolInv_loopBody {r : Range} {nonNull : Nat → Bool} {s : MainState}
    (hnn : ∀ k, nonNull k = true) (hk : 0 < handle_count r) (hinv : PoolInv r s) :
    PoolInv r (loopBody r nonNull s) := by
  by_cases hfree : s.free_handles = []
  · obtain ⟨q, _, hsplit, hget⟩ := get_free_handle_empty hk hinv hfree
    have hown := hinv.owned
    have hsort := hinv.newestFirst
    have hbef := hinv.before
    rw [hsplit] at hown hsort hbef
    simp only [loopBody, hget, hnn]
    refine ⟨?_, ?_, ?_, ?_⟩
    · simp only [hfree, List.nil_append, List.map_append, List.map_cons, List.map_nil,
        if_true] at hown ⊢
      exact (@List.perm_append_comm _ [q.handle] _).trans hown
    · simp only [if_true, List.pairwise_cons]
      refine ⟨fun a ha => ?_, (List.pairwise_append.mp hsort).1⟩
      exact hbef a (List.mem_append_left _ ha)
    · intro a ha
      simp only [if_true, List.mem_cons] at ha
      rcases ha with rfl | ha
      · simp
      · exact Nat.lt_succ_of_lt (hbef a (List.mem_append_left _ ha))
    · exact hinv.defined
  · obtain ⟨h, hsplit, hget⟩ := get_free_handle_nonempty (s := s) hfree
    have hown := hinv.owned
    rw [hsplit] at hown
    simp only [loopBody, hget, hnn]
    refine ⟨?_, ?_, ?_, ?_⟩
    · simp only [if_true, List.map_cons, List.append_assoc, List.singleton_append] at hown ⊢
      exact hown
    · simp only [if_true, List.pairwise_cons]
      exact ⟨fun a ha => hinv.before a ha, hinv.newestFirst⟩
    · intro a ha
      simp only [if_true, List.mem_cons] at ha
      rcases ha with rfl | ha
      · simp
      · exact Nat.lt_succ_of_lt (hinv.before a ha)
    · exact hinv.defined

theorem poolInv_step {r : Range} {nonNull : Nat → Bool} {s : MainState}
    (hnn : ∀ k, nonNull k = true) (hk : 0 < handle_count r) (hinv : PoolInv r s) :
    PoolInv r (step r nonNull s) := by
  unfold step
  split
  · split
    · exact ⟨hinv.owned, hinv.newestFirst, hinv.before, by simp⟩
    · exact ⟨hinv.owned, hinv.newestFirst, hinv.before, by simp⟩
  · split
    · exact poolInv_loopBody hnn hk hinv
    · exact ⟨hinv.owned, hinv.newestFirst, hinv.before, by simp⟩
  · exact hinv
  · exact hinv

theorem poolInv_run {r : Range} {nonNull : Nat → Bool}
    (hnn : ∀ k, nonNull k = true) (hk : 0 < handle_count r) (n : Nat) :
    PoolInv r (run r nonNull n) := by
  induction n with
  | zero => exact poolInv_init r
  | succ n ih => exact poolInv_step hnn hk ih

/-! ## Arithmetic of a valid range -/

theorem UWord_eq : UWord = 4294967296 := by norm_num [UWord]

theorem usub_of_le {a b : Nat} (hb : b ≤ a) (ha : a < UWord) : usub a b = a - b := by
  unfold usub
  rw [UWord_eq] at *
  omega

theorem uadd_of_lt {a b : Nat} (h : a + b < UWord) : uadd a b = a + b :=
  Nat.mod_eq_of_lt h

theorem umul_of_lt {a b : Nat} (h : a * b < UWord) : umul a b = a * b :=
  Nat.mod_eq_of_lt h

theorem year_count_valid {r : Range} (hv : r.Valid) :
    year_count r = r.year_max - r.year_min + 1 := by
  obtain ⟨_, h2, _, h4, _, _⟩ := hv
  unfold year_count
  rw [usub_of_le h2 (by omega), uadd_of_lt (by omega)]

theorem cbody_count_valid {r : Range} (hv : r.Valid) :
    cbody_count r = r.cbody_max - r.cbody_min + 1 := by
  obtain ⟨_, _, h3, _, h5, _⟩ := hv
  unfold cbody_count
  rw [usub_of_le h3 (by omega), uadd_of_lt (by omega)]

theorem request_count_valid {r : Range} (hv : r.Valid) :
    request_count r = (r.year_max - r.year_min + 1) * (r.cbody_max - r.cbody_min + 1) := by
  unfold request_count
  rw [year_count_valid hv, cbody_count_valid hv, umul_of_lt hv.2.2.2.2.2]

theorem handle_count_pos {r : Range} (hv : r.Valid) : 0 < handle_count r := by
  unfold handle_count
  rw [request_count_valid hv]
  have : 0 < (r.year_max - r.year_min + 1) * (r.cbody_max - r.cbody_min + 1) :=
    Nat.mul_pos (Nat.succ_pos _) (Nat.succ_pos _)
  simp only [MaxConnections]
  omega

theorem handle_count_le (r : Range) : handle_count r ≤ MaxConnections :=
  Nat.min_le_right _ _

/-! ## The nested loops -/

theorem rowMajor_succ (r : Range) (m : Nat) : rowMajor r (m + 1) = rowMajor r m ++ [cellAt r m] := by
  simp [rowMajor, List.range_succ]

/-- The fields of the state after the loop body, when the pool invariant holds. -/
theorem loopBody_fields {r : Range} (nonNull : Nat → Bool) {s : MainState}
    (hk : 0 < handle_count r) (hinv : PoolInv r s) :
    (loopBody r nonNull s).pc = s.pc ∧ (loopBody r nonNull s).year = s.year ∧
    (loopBody r nonNull s).planetIdx = uadd s.planetIdx 1 ∧
    (loopBody r nonNull s).issued
      = s.issued ++ [{ request_idx := request_idx r s.year s.planetIdx,
                       year := s.year, planetIdx := s.planetIdx,
                       setIdx := usub s.year r.year_min,
                       cbodyIdx := usub s.planetIdx r.cbody_min }] := by
  by_cases hfree : s.free_handles = []
  · obtain ⟨q, _, _, hget⟩ := get_free_handle_empty hk hinv hfree
    simp [loopBody, hget]
  · obtain ⟨h, _, hget⟩ := get_free_handle_nonempty (s := s) hfree
    simp [loopBody, hget]

/-- The entry the loop body reports for the cell `(year, planetIdx)` of a valid
range is the row-major cell of its position. -/
theorem issued_entry {r : Range} (hv : r.Valid) {year planetIdx : Nat}
    (hy1 : r.year_min ≤ year) (hy2 : year ≤ r.year_max)
    (hp1 : r.cbody_min ≤ planetIdx) (hp2 : planetIdx ≤ r.cbody_max) :
    ({ request_idx := request_idx r year planetIdx, year := year, planetIdx := planetIdx,
       setIdx := usub year r.year_min, cbodyIdx := usub planetIdx r.cbody_min } : Issued)
      = cellAt r ((year - r.year_min) * cbody_count r + (planetIdx - r.cbody_min)) := by
  have hcc := cbody_count_valid hv
  obtain ⟨_, h2, h3, h4, h5, h6⟩ := hv
  rw [← hcc] at h6
  have hccpos : 0 < cbody_count r := by omega
  have hb : planetIdx - r.cbody_min < cbody_count r := by omega
  have hrow : (year - r.year_min + 1) * cbody_count r
      ≤ (r.year_max - r.year_min + 1) * cbody_count r :=
    Nat.mul_le_mul_right _ (by omega)
  have hexp : (year - r.year_min + 1) * cbody_count r
      = (year - r.year_min) * cbody_count r + cbody_count r := by ring
  have hys : usub year r.year_min = year - r.year_min := usub_of_le hy1 (by omega)
  have hps : usub planetIdx r.cbody_min = planetIdx - r.cbody_min := usub_of_le hp1 (by omega)
  have hidx : request_idx r year planetIdx
      = (year - r.year_min) * cbody_count r + (planetIdx - r.cbody_min) + 1 := by
    have hm : umul (year - r.year_min) (cbody_count r)
        = (year - r.year_min) * cbody_count r := umul_of_lt (by omega)
    have ha : uadd ((year - r.year_min) * cbody_count r) (planetIdx - r.cbody_min)
        = (year - r.year_min) * cbody_count r + (planetIdx - r.cbody_min) :=
      uadd_of_lt (by omega)
    have hb1 : uadd ((year - r.year_min) * cbody_count r + (planetIdx - r.cbody_min)) 1
        = (year - r.year_min) * cbody_count r + (planetIdx - r.cbody_min) + 1 :=
      uadd_of_lt (by omega)
    unfold request_idx
    rw [hys, hps, hm, ha, hb1]
  have hdiv : ((year - r.year_min) * cbody_count r + (planetIdx - r.cbody_min)) / cbody_count r
      = year - r.year_min := by
    rw [Nat.add_comm, Nat.add_mul_div_right _ _ hccpos, Nat.div_eq_of_lt hb, Nat.zero_add]
  have hmod : ((year - r.year_min) * cbody_count r + (planetIdx - r.cbody_min)) % cbody_count r
      = planetIdx - r.cbody_min := by
    rw [Nat.add_comm, Nat.add_mul_mod_self_right, Nat.mod_eq_of_lt hb]
  simp only [cellAt, hidx, hdiv, hmod, hys, hps, Issued.mk.injEq, true_and, and_true]
  exact ⟨by omega, by omega⟩

/-- One step keeps the invariant of the log and takes one step off `stepsLeft`. -/
theorem logInv_step {r : Range} (hv : r.Valid) (nonNull : Nat → Bool) {s : MainState}
    (hpool : PoolInv r s) (hlog : LogInv r s) :
    LogInv r (step r nonNull s) ∧ stepsLeft r (step r nonNull s) = stepsLeft r s - 1 := by
  have hcc := cbody_count_valid hv
  have hyc := year_count_valid hv
  have hk := handle_count_pos hv
  obtain ⟨h1, h2, h3, h4, h5, h6⟩ := id hv
  cases hpc : s.pc with
  | yearLoop =>
    simp only [LogInv, hpc] at hlog
    obtain ⟨hy1, hy2, hiss⟩ := hlog
    by_cases hle : s.year ≤ r.year_max
    · have hst : step r nonNull s = { s with planetIdx := r.cbody_min, pc := Pc.planetLoop } := by
        simp [step, hpc, hle]
      rw [hst]
      refine ⟨?_, ?_⟩
      · simp only [LogInv, Nat.sub_self, Nat.add_zero]
        exact ⟨hy1, hle, le_refl _, by omega, hiss⟩
      · simp only [stepsLeft, hpc]
        have : r.year_max + 1 - s.year = (r.year_max - s.year) + 1 := by omega
        rw [this, Nat.add_mul]
        omega
    · have hst : step r nonNull s = { s with pc := Pc.drain } := by
        simp [step, hpc, hle]
      rw [hst]
      have hyeq : s.year = r.year_max + 1 := by omega
      refine ⟨?_, ?_⟩
      · simp only [LogInv, hyc]
        rw [hiss, hyeq]
        congr 2
        omega
      · simp only [stepsLeft, hpc, hyeq, Nat.sub_self, Nat.zero_mul]
  | planetLoop =>
    simp only [LogInv, hpc] at hlog
    obtain ⟨hy1, hy2, hp1, hp2, hiss⟩ := hlog
    by_cases hle : s.planetIdx ≤ r.cbody_max
    · have hst : step r nonNull s = loopBody r nonNull s := by
        simp [step, hpc, hle]
      obtain ⟨fpc, fyear, fplanet, fissued⟩ := loopBody_fields nonNull hk hpool
      rw [hst]
      have hinc : uadd s.planetIdx 1 = s.planetIdx + 1 := uadd_of_lt (by omega)
      refine ⟨?_, ?_⟩
      · simp only [LogInv, fpc, hpc, fyear, fplanet, fissued, hinc]
        refine ⟨hy1, hy2, by omega, by omega, ?_⟩
        rw [issued_entry hv hy1 hy2 hp1 hle, hiss, ← rowMajor_succ]
        congr 1
        omega
      · simp only [stepsLeft, fpc, hpc, fyear, fplanet, hinc]
        omega
    · have hst : step r nonNull s = { s with year := uadd s.year 1, pc := Pc.yearLoop } := by
        simp [step, hpc, hle]
      rw [hst]
      have hinc : uadd s.year 1 = s.year + 1 := uadd_of_lt (by omega)
      have hpeq : s.planetIdx = r.cbody_max + 1 := by omega
      refine ⟨?_, ?_⟩
      · simp only [LogInv, hinc]
        refine ⟨by omega, by omega, ?_⟩
        rw [hiss, hpeq]
        congr 1
        have : s.year + 1 - r.year_min = (s.year - r.year_min) + 1 := by omega
        rw [this, Nat.add_mul, hcc]
        omega
      · simp only [stepsLeft, hpc, hinc, hpeq, Nat.sub_self]
        have : r.year_max + 1 - (s.year + 1) = r.year_max - s.year := by omega
        rw [this]
        omega
  | drain =>
    have hst : step r nonNull s = s := by simp [step, hpc]
    rw [hst]
    exact ⟨hlog, by simp [stepsLeft, hpc]⟩
  | undefinedBehaviour => exact absurd hpc hpool.defined

theorem logInv_init {r : Range} (hv : r.Valid) : LogInv r (initState r) := by
  obtain ⟨_, h2, _⟩ := hv
  simp only [LogInv, initState, Nat.sub_self, Nat.zero_mul, rowMajor, List.range_zero,
    List.map_nil, le_refl, true_and, and_true]
  omega

theorem logInv_run {r : Range} (hv : r.Valid) {nonNull : Nat → Bool}
    (hnn : ∀ k, nonNull k = true) (n : Nat) :
    LogInv r (run r nonNull n) ∧
    stepsLeft r (run r nonNull n) = stepsLeft r (initState r) - n := by
  induction n with
  | zero => exact ⟨logInv_init hv, rfl⟩
  | succ n ih =>
    have h := logInv_step hv nonNull
      (poolInv_run hnn (handle_count_pos hv) n) ih.1
    refine ⟨h.1, ?_⟩
    show stepsLeft r (step r nonNull (run r nonNull n)) = _
    rw [h.2, ih.2]
    omega

/-- After `stepsLeft` steps the loops of a valid range are over, with the grid
reported in row-major order. -/
theorem run_finishes {r : Range} (hv : r.Valid) {nonNull : Nat → Bool}
    (hnn : ∀ k, nonNull k = true) (m : Nat) (hm : stepsLeft r (initState r) ≤ m) :
    (run r nonNull m).pc = Pc.drain ∧
    (run r nonNull m).issued = rowMajor r (year_count r * cbody_count r) := by
  obtain ⟨hlog, hleft⟩ := logInv_run hv hnn m
  have hzero : stepsLeft r (run r nonNull m) = 0 := by omega
  cases hpc : (run r nonNull m).pc with
  | yearLoop => simp [stepsLeft, hpc] at hzero
  | planetLoop => simp [stepsLeft, hpc] at hzero
  | drain =>
    simp only [LogInv, hpc] at hlog
    exact ⟨rfl, hlog⟩
  | undefinedBehaviour => simp [LogInv, hpc] at hlog

theorem rowMajor_getElem? (r : Range) {m k : Nat} (hk : k < m) :
    (rowMajor r m)[k]? = some (cellAt r k) := by
  simp [rowMajor, List.getElem?_range hk]

theorem rowMajor_getElem?_none (r : Range) {m k : Nat} (hk : m ≤ k) :
    (rowMajor r m)[k]? = none := by
  simp [rowMajor, hk]

theorem mem_rowMajor {r : Range} {m : Nat} {e : Issued} (he : e ∈ rowMajor r m) :
    ∃ k, k < m ∧ e = cellAt r k := by
  simp only [rowMajor, List.mem_map, List.mem_range] at he
  obtain ⟨k, hk, rfl⟩ := he
  exact ⟨k, hk, rfl⟩

/-! ## The matcher and the language of a pattern -/

theorem starLoop_sound (p : Char → Bool) (k : List Char → Caps → Option (Caps × List Char))
    (s : List Char) : ∀ (cs : Caps) (x : Caps × List Char), starLoop p k s cs = some x →
      ∃ u v, s = u ++ v ∧ (∀ c ∈ u, p c = true) ∧ k v (cs.takeAll u) = some x := by
  induction s with
  | nil =>
    intro cs x h
    exact ⟨[], [], rfl, by simp, by simpa [starLoop, Caps.takeAll] using h⟩
  | cons c s ih =>
    intro cs x h
    simp only [starLoop] at h
    by_cases hp : p c = true
    · simp only [hp, if_true] at h
      cases hrec : starLoop p k s (cs.take c) with
      | some y =>
        rw [hrec] at h
        obtain ⟨u, v, hs, hu, hk⟩ := ih (cs.take c) y hrec
        refine ⟨c :: u, v, by simp [hs], ?_, ?_⟩
        · intro d hd
          rcases List.mem_cons.mp hd with rfl | hd
          · exact hp
          · exact hu d hd
        · simpa [Caps.takeAll] using hk.trans h
      | none =>
        rw [hrec] at h
        exact ⟨[], c :: s, rfl, by simp, by simpa [Caps.takeAll] using h⟩
    · simp only [hp] at h
      exact ⟨[], c :: s, rfl, by simp, by simpa [Caps.takeAll] using h⟩

theorem starLoop_complete (p : Char → Bool) (k : List Char → Caps → Option (Caps × List Char))
    (u : List Char) : ∀ (v : List Char) (cs : Caps) (x : Caps × List Char),
      (∀ c ∈ u, p c = true) → (∀ c t, v = c :: t → p c = false) →
      k v (cs.takeAll u) = some x → starLoop p k (u ++ v) cs = some x := by
  induction u with
  | nil =>
    intro v cs x _ hv hk
    cases v with
    | nil => simpa [starLoop, Caps.takeAll] using hk
    | cons c t =>
      have hc := hv c t rfl
      simpa [starLoop, Caps.takeAll, hc] using hk
  | cons a u ih =>
    intro v cs x hu hv hk
    have ha : p a = true := hu a (List.mem_cons_self _ _)
    have hrec := ih v (cs.take a) x (fun c hc => hu c (List.mem_cons_of_mem _ hc)) hv
      (by simpa [Caps.takeAll] using hk)
    show starLoop p k (a :: (u ++ v)) cs = some x
    simp only [starLoop, ha, if_true, hrec]

theorem matchItems_sound (items : List Item) : ∀ (s : List Char) (cs cs1 : Caps)
    (rest : List Char), matchItems items s cs = some (cs1, rest) →
      ∃ w, s = w ++ rest ∧ Denote items cs w cs1 := by
  induction items with
  | nil =>
    intro s cs cs1 rest h
    simp only [matchItems, Option.some.injEq, Prod.mk.injEq] at h
    exact ⟨[], by simp [h.2], by simp [Denote, h.1]⟩
  | cons it items ih =>
    intro s cs cs1 rest h
    cases it with
    | one p =>
      cases s with
      | nil => simp [matchItems] at h
      | cons c s =>
        simp only [matchItems] at h
        by_cases hp : p c = true
        · simp only [hp, if_true] at h
          obtain ⟨w, hs, hd⟩ := ih s (cs.take c) cs1 rest h
          exact ⟨c :: w, by simp [hs], c, w, rfl, hp, hd⟩
        · simp [hp] at h
    | opt p =>
      cases s with
      | nil =>
        simp only [matchItems] at h
        obtain ⟨w, hs, hd⟩ := ih [] cs cs1 rest h
        exact ⟨w, hs, Or.inl hd⟩
      | cons c s =>
        simp only [matchItems] at h
        by_cases hp : p c = true
        · simp only [hp, if_true] at h
          cases hrec : matchItems items s (cs.take c) with
          | some y =>
            rw [hrec] at h
            obtain ⟨w, hs, hd⟩ := ih s (cs.take c) cs1 rest (hrec.trans h)
            exact ⟨c :: w, by simp [hs], Or.inr ⟨c, w, rfl, hp, hd⟩⟩
          | none =>
            rw [hrec] at h
            obtain ⟨w, hs, hd⟩ := ih (c :: s) cs cs1 rest h
            exact ⟨w, hs, Or.inl hd⟩
        · simp only [hp] at h
          obtain ⟨w, hs, hd⟩ := ih (c :: s) cs cs1 rest h
          exact ⟨w, hs, Or.inl hd⟩
    | star p =>
      simp only [matchItems] at h
      obtain ⟨u, v, hs, hu, hk⟩ := starLoop_sound p (matchItems items) s cs _ h
      obtain ⟨w, hv, hd⟩ := ih v (cs.takeAll u) cs1 rest hk
      exact ⟨u ++ w, by simp [hs, hv], u, w, rfl, hu, hd⟩
    | plus p =>
      cases s with
      | nil => simp [matchItems] at h
      | cons c s =>
        simp only [matchItems] at h
        by_cases hp : p c = true
        · simp only [hp, if_true] at h
          obtain ⟨u, v, hs, hu, hk⟩ := starLoop_sound p (matchItems items) s (cs.take c) _ h
          obtain ⟨w, hv, hd⟩ := ih v ((cs.take c).takeAll u) cs1 rest hk
          refine ⟨c :: u ++ w, by simp [hs, hv], c :: u, w, rfl, by simp, ?_, hd⟩
          intro d hd
          rcases List.mem_cons.mp hd with rfl | hd
          · exact hp
          · exact hu d hd
        · simp [hp] at h
    | openGroup =>
      simp only [matchItems] at h
      obtain ⟨w, hs, hd⟩ := ih s cs.openGroup cs1 rest h
      exact ⟨w, hs, hd⟩
    | closeGroup =>
      simp only [matchItems] at h
      obtain ⟨w, hs, hd⟩ := ih s cs.closeGroup cs1 rest h
      exact ⟨w, hs, hd⟩

theorem excl_head {p : Char → Bool} (items : List Item) : ∀ (cs : Caps) (w : List Char)
    (cs1 : Caps), Excl p items → Denote items cs w cs1 →
      ∃ c v, w = c :: v ∧ p c = false := by
  induction items with
  | nil => intro cs w cs1 he; exact absurd he (by simp [Excl])
  | cons it items ih =>
    intro cs w cs1 he hd
    cases it with
    | one q =>
      obtain ⟨c, v, hw, hq, _⟩ := hd
      exact ⟨c, v, hw, he c hq⟩
    | plus q =>
      obtain ⟨u, v, hw, hne, hu, _⟩ := hd
      cases u with
      | nil => exact absurd rfl hne
      | cons a u => exact ⟨a, u ++ v, by simp [hw], he a (hu a (List.mem_cons_self _ _))⟩
    | opt q =>
      rcases hd with hd | ⟨c, v, hw, hq, _⟩
      · exact ih cs w cs1 he.2 hd
      · exact ⟨c, v, hw, he.1 c hq⟩
    | star q =>
      obtain ⟨u, v, hw, hu, hd⟩ := hd
      cases u with
      | nil =>
        obtain ⟨c, t, hv, hc⟩ := ih _ v cs1 he.2 hd
        exact ⟨c, t, by simp [hw, hv], hc⟩
      | cons a u => exact ⟨a, u ++ v, by simp [hw], he.1 a (hu a (List.mem_cons_self _ _))⟩
    | openGroup => exact ih _ w cs1 he hd
    | closeGroup => exact ih _ w cs1 he hd

theorem matchItems_complete (items : List Item) : ∀ (cs : Caps) (w : List Char) (cs1 : Caps)
    (rest : List Char), Det items → Denote items cs w cs1 →
      matchItems items (w ++ rest) cs = some (cs1, rest) := by
  induction items with
  | nil =>
    intro cs w cs1 rest _ hd
    obtain ⟨rfl, rfl⟩ := hd
    simp [matchItems]
  | cons it items ih =>
    intro cs w cs1 rest hdet hd
    cases it with
    | one p =>
      obtain ⟨c, v, rfl, hp, hd⟩ := hd
      simp only [List.cons_append, matchItems, hp, if_true]
      exact ih _ v cs1 rest hdet hd
    | opt p =>
      rcases hd with hd | ⟨c, v, rfl, hp, hd⟩
      · obtain ⟨c, v, rfl, hc⟩ := excl_head items cs w cs1 hdet.1 hd
        have := ih cs (c :: v) cs1 rest hdet.2 hd
        simpa [matchItems, hc] using this
      · have := ih _ v cs1 rest hdet.2 hd
        simp only [List.cons_append, matchItems, hp, if_true, this]
    | star p =>
      obtain ⟨u, v, rfl, hu, hd⟩ := hd
      obtain ⟨c, t, rfl, hc⟩ := excl_head items _ v cs1 hdet.1 hd
      have := ih _ (c :: t) cs1 rest hdet.2 hd
      simp only [matchItems, List.append_assoc]
      refine starLoop_complete p (matchItems items) u _ cs _ hu ?_ this
      intro c1 t1 h1
      simp only [List.cons_append, List.cons.injEq] at h1
      rw [← h1.1]; exact hc
    | plus p =>
      obtain ⟨u, v, rfl, hne, hu, hd⟩ := hd
      obtain ⟨c, t, rfl, hc⟩ := excl_head items _ v cs1 hdet.1 hd
      cases u with
      | nil => exact absurd rfl hne
      | cons a u =>
        have ha : p a = true := hu a (List.mem_cons_self _ _)
        have := ih _ (c :: t) cs1 rest hdet.2 hd
        simp only [List.cons_append, matchItems, ha, if_true, List.append_assoc]
        refine starLoop_complete p (matchItems items) u _ (cs.take a) _
          (fun d hd => hu d (List.mem_cons_of_mem _ hd)) ?_ this
        intro c1 t1 h1
        simp only [List.cons_append, List.cons.injEq] at h1
        rw [← h1.1]; exact hc
    | openGroup => exact ih _ w cs1 rest hdet hd
    | closeGroup => exact ih _ w cs1 rest hdet hd

/-! ## `regex_search` finds the leftmost match -/

theorem searchFrom_some (re : List Item) (s : List Char) : ∀ (pos : Nat) (m : SMatch),
    searchFrom re pos s = some m →
      ∃ pre suf cs1 rest, s = pre ++ suf ∧ matchItems re suf Caps.init = some (cs1, rest) ∧
        m = { position := pos + pre.length, groups := cs1.closed } ∧
        ∀ pre2 suf2, s = pre2 ++ suf2 → pre2.length < pre.length →
          matchItems re suf2 Caps.init = none := by
  induction s with
  | nil =>
    intro pos m h
    simp only [searchFrom] at h
    cases hm : matchItems re [] Caps.init with
    | none => simp [hm] at h
    | some x =>
      obtain ⟨cs1, rest⟩ := x
      simp only [hm, Option.some.injEq] at h
      exact ⟨[], [], cs1, rest, rfl, hm, by simp [← h], by simp⟩
  | cons c t ih =>
    intro pos m h
    simp only [searchFrom] at h
    cases hm : matchItems re (c :: t) Caps.init with
    | some x =>
      obtain ⟨cs1, rest⟩ := x
      simp only [hm, Option.some.injEq] at h
      exact ⟨[], c :: t, cs1, rest, rfl, hm, by simp [← h], by simp⟩
    | none =>
      simp only [hm] at h
      obtain ⟨pre, suf, cs1, rest, hs, hmatch, hmeq, hmin⟩ := ih (pos + 1) m h
      refine ⟨c :: pre, suf, cs1, rest, by simp [hs], hmatch, ?_, ?_⟩
      · rw [hmeq]; simp only [List.length_cons, SMatch.mk.injEq, and_true]; omega
      · intro pre2 suf2 h2 hlt
        cases pre2 with
        | nil =>
          simp only [List.nil_append] at h2
          rw [← h2]; exact hm
        | cons a pre2 =>
          simp only [List.cons_append, List.cons.injEq] at h2
          exact hmin pre2 suf2 h2.2 (by simpa using hlt)

theorem searchFrom_none (re : List Item) (s : List Char) : ∀ (pos : Nat),
    searchFrom re pos s = none →
      ∀ pre suf, s = pre ++ suf → matchItems re suf Caps.init = none := by
  induction s with
  | nil =>
    intro pos h pre suf hs
    have hsuf : suf = [] := (List.append_eq_nil.mp hs.symm).2
    subst hsuf
    simp only [searchFrom] at h
    cases hm : matchItems re [] Caps.init with
    | none => rfl
    | some x => simp [hm] at h
  | cons c t ih =>
    intro pos h pre suf hs
    simp only [searchFrom] at h
    cases hm : matchItems re (c :: t) Caps.init with
    | some x => simp [hm] at h
    | none =>
      simp only [hm] at h
      cases pre with
      | nil =>
        simp only [List.nil_append] at hs
        rw [← hs]; exact hm
      | cons a pre =>
        simp only [List.cons_append, List.cons.injEq] at hs
        exact ih (pos + 1) h pre suf hs.2

/-- A match of the pattern somewhere in the text, in the sense of `Denote`. -/
theorem regex_search_none {re : List Item} (hdet : Det re) {data : List Char}
    (h : regex_search data re = none) (pre w post : List Char) (cs1 : Caps)
    (hdata : data = pre ++ w ++ post) : ¬ Denote re Caps.init w cs1 := by
  intro hd
  have h1 := searchFrom_none re data 0 h pre (w ++ post) (by simp [hdata])
  rw [matchItems_complete re Caps.init w cs1 post hdet hd] at h1
  exact absurd h1 (by simp)

theorem regex_search_some {re : List Item} (hdet : Det re) {data : List Char} {m : SMatch}
    (h : regex_search data re = some m) :
    ∃ pre w post cs1, data = pre ++ w ++ post ∧ Denote re Caps.init w cs1 ∧
      m = { position := pre.length, groups := cs1.closed } ∧
      ∀ pre2 w2 post2 cs2, data = pre2 ++ w2 ++ post2 → Denote re Caps.init w2 cs2 →
        pre.length ≤ pre2.length := by
  obtain ⟨pre, suf, cs1, rest, hs, hmatch, hmeq, hmin⟩ := searchFrom_some re data 0 m h
  obtain ⟨w, hw, hd⟩ := matchItems_sound re suf Caps.init cs1 rest hmatch
  refine ⟨pre, w, rest, cs1, by simp [hs, hw], hd, by simpa using hmeq, ?_⟩
  intro pre2 w2 post2 cs2 h2 hd2
  by_contra hlt
  have h1 := hmin pre2 (w2 ++ post2) (by simp [h2]) (by omega)
  rw [matchItems_complete re Caps.init w2 cs2 post2 hdet hd2] at h1
  exact absurd h1 (by simp)

/-- The leftmost match determines the result of `regex_search`. -/
theorem regex_search_leftmost {re : List Item} (hdet : Det re) {data pre w post : List Char}
    {cs1 : Caps} (hdata : data = pre ++ w ++ post) (hd : Denote re Caps.init w cs1)
    (hleft : ∀ pre2 w2 post2 cs2, data = pre2 ++ w2 ++ post2 → Denote re Caps.init w2 cs2 →
      pre.length ≤ pre2.length) :
    regex_search data re = some { position := pre.length, groups := cs1.closed } := by
  cases h : regex_search data re with
  | none => exact absurd hd (regex_search_none hdet h pre w post cs1 hdata)
  | some m =>
    obtain ⟨pre0, suf, cs0, rest, hs, hmatch, hmeq, hmin⟩ := searchFrom_some re data 0 m h
    obtain ⟨w0, hw0, hd0⟩ := matchItems_sound re suf Caps.init cs0 rest hmatch
    have hle : pre.length ≤ pre0.length :=
      hleft pre0 w0 rest cs0 (by simp [hs, hw0]) hd0
    have hge : pre0.length ≤ pre.length := by
      by_contra hlt
      have h1 := hmin pre (w ++ post) (by simp [hdata]) (by omega)
      rw [matchItems_complete re Caps.init w cs1 post hdet hd] at h1
      exact absurd h1 (by simp)
    have hlen : pre0.length = pre.length := by omega
    have happ : pre0 ++ suf = pre ++ (w ++ post) := by rw [← hs, hdata, List.append_assoc]
    obtain ⟨hpre, hsuf⟩ := List.append_inj happ hlen
    rw [hsuf, matchItems_complete re Caps.init w cs1 post hdet hd] at hmatch
    simp only [Option.some.injEq, Prod.mk.injEq] at hmatch
    rw [hmeq, ← hmatch.1, hlen]
    simp

/-! ## The language of the two patterns is the one the words describe -/

theorem take_some (cl : List (List Char)) (a : List Char) (c : Char) :
    ({ closed := cl, current := some a } : Caps).take c
      = { closed := cl, current := some (a ++ [c]) } := rfl

theorem takeAll_some (cl : List (List Char)) (u : List Char) : ∀ a : List Char,
    ({ closed := cl, current := some a } : Caps).takeAll u
      = { closed := cl, current := some (a ++ u) } := by
  induction u with
  | nil => intro a; simp [Caps.takeAll]
  | cons c u ih => intro a; simp [Caps.takeAll, take_some, ih]

theorem take_none (cl : List (List Char)) (c : Char) :
    ({ closed := cl, current := none } : Caps).take c
      = { closed := cl, current := none } := rfl

theorem takeAll_none (cl : List (List Char)) (u : List Char) :
    ({ closed := cl, current := none } : Caps).takeAll u
      = { closed := cl, current := none } := by
  induction u with
  | nil => rfl
  | cons c u ih => simp [Caps.takeAll, take_none, ih]

theorem closeGroup_some (cl : List (List Char)) (a : List Char) :
    ({ closed := cl, current := some a } : Caps).closeGroup
      = { closed := cl ++ [a], current := none } := rfl

theorem openGroup_none (cl : List (List Char)) :
    ({ closed := cl, current := none } : Caps).openGroup
      = { closed := cl, current := some [] } := rfl

theorem sign_iff (c : Char) : sign c = true ↔ (c = '+' ∨ c = '-') := by
  simp [sign, or_comm]

theorem blank_iff (c : Char) : blank c = true ↔ c = ' ' := by
  simp [blank]

/-- The part of the number group after the optional sign `sg`. -/
theorem denote_unsigned (rest : List Item) (cl : List (List Char)) (sg w : List Char)
    (cs1 : Caps) :
    Denote (Item.plus digit :: lit '.' :: Item.plus digit :: lit 'E' :: Item.one sign ::
        Item.one digit :: Item.one digit :: Item.closeGroup :: rest)
      { closed := cl, current := some sg } w cs1 ↔
    ∃ ip fp es d1 d2 v, w = ip ++ '.' :: fp ++ 'E' :: es :: d1 :: d2 :: v ∧
      ip ≠ [] ∧ (∀ c ∈ ip, c.isDigit = true) ∧ fp ≠ [] ∧ (∀ c ∈ fp, c.isDigit = true) ∧
      (es = '+' ∨ es = '-') ∧ d1.isDigit = true ∧ d2.isDigit = true ∧
      Denote rest { closed := cl ++ [sg ++ ip ++ '.' :: fp ++ ['E', es, d1, d2]],
                    current := none } v cs1 := by
  simp only [Denote, lit, takeAll_some, take_some, closeGroup_some, sign_iff, digit,
    beq_iff_eq]
  constructor
  · rintro ⟨ip, v, rfl, hip, hipd, c, v, rfl, rfl, fp, v, rfl, hfp, hfpd, c, v, rfl, rfl,
      es, v, rfl, hes, d1, v, rfl, hd1, d2, v, rfl, hd2, hrest⟩
    refine ⟨ip, fp, es, d1, d2, v, by simp, hip, hipd, hfp, hfpd, hes, hd1, hd2, ?_⟩
    simpa using hrest
  · rintro ⟨ip, fp, es, d1, d2, v, hw, hip, hipd, hfp, hfpd, hes, hd1, hd2, hrest⟩
    refine ⟨ip, '.' :: (fp ++ 'E' :: es :: d1 :: d2 :: v), by simp [hw], hip, hipd, '.', _,
      rfl, rfl, fp, _, rfl, hfp, hfpd, 'E', _, rfl, rfl, es, _, rfl, hes, d1, _, rfl, hd1,
      d2, v, rfl, hd2, ?_⟩
    simpa using hrest

theorem denote_numGroup (rest : List Item) (cl : List (List Char)) (w : List Char)
    (cs1 : Caps) :
    Denote (numGroup ++ rest) { closed := cl, current := none } w cs1 ↔
    ∃ num v, w = num ++ v ∧ IsNum num ∧
      Denote rest { closed := cl ++ [num], current := none } v cs1 := by
  have hsplit : numGroup ++ rest = Item.openGroup :: Item.opt sign ::
      Item.plus digit :: lit '.' :: Item.plus digit :: lit 'E' :: Item.one sign ::
        Item.one digit :: Item.one digit :: Item.closeGroup :: rest := rfl
  rw [hsplit, Denote, Denote]
  simp only [openGroup_none, take_some, denote_unsigned, sign_iff]
  constructor
  · rintro (⟨ip, fp, es, d1, d2, v, rfl, hip, hipd, hfp, hfpd, hes, hd1, hd2, hrest⟩ |
      ⟨c, w, rfl, hc, ip, fp, es, d1, d2, v, rfl, hip, hipd, hfp, hfpd, hes, hd1, hd2, hrest⟩)
    · refine ⟨[] ++ ip ++ '.' :: fp ++ ['E', es, d1, d2], v, by simp,
        ⟨[], ip, fp, es, d1, d2, rfl, Or.inl rfl, hip, hipd, hfp, hfpd, hes, hd1, hd2⟩, ?_⟩
      simpa using hrest
    · refine ⟨[c] ++ ip ++ '.' :: fp ++ ['E', es, d1, d2], v, by simp,
        ⟨[c], ip, fp, es, d1, d2, rfl, ?_, hip, hipd, hfp, hfpd, hes, hd1, hd2⟩, ?_⟩
      · rcases hc with rfl | rfl
        · exact Or.inr (Or.inr rfl)
        · exact Or.inr (Or.inl rfl)
      · simpa using hrest
  · rintro ⟨num, v, rfl, ⟨sg, ip, fp, es, d1, d2, rfl, hsg, hip, hipd, hfp, hfpd, hes, hd1, hd2⟩,
      hrest⟩
    rcases hsg with rfl | rfl | rfl
    · left
      exact ⟨ip, fp, es, d1, d2, v, by simp, hip, hipd, hfp, hfpd, hes, hd1, hd2,
        by simpa using hrest⟩
    · right
      exact ⟨'-', _, by simp, Or.inr rfl, ip, fp, es, d1, d2, v, rfl, hip, hipd, hfp, hfpd, hes,
        hd1, hd2, by simpa using hrest⟩
    · right
      exact ⟨'+', _, by simp, Or.inl rfl, ip, fp, es, d1, d2, v, rfl, hip, hipd, hfp, hfpd, hes,
        hd1, hd2, by simpa using hrest⟩

theorem denote_nil (cs : Caps) (w : List Char) (cs1 : Caps) :
    Denote [] cs w cs1 ↔ w = [] ∧ cs1 = cs := Iff.rfl

theorem denote_lit (a : Char) (rest : List Item) (cl : List (List Char)) (w : List Char)
    (cs1 : Caps) :
    Denote (lit a :: rest) { closed := cl, current := none } w cs1 ↔
    ∃ v, w = a :: v ∧ Denote rest { closed := cl, current := none } v cs1 := by
  constructor
  · rintro ⟨c, v, rfl, hc, h⟩
    have hca : c = a := by simpa using hc
    subst hca
    exact ⟨v, rfl, h⟩
  · rintro ⟨v, rfl, h⟩
    exact ⟨a, v, rfl, by simp, h⟩

theorem denote_blanks (rest : List Item) (cl : List (List Char)) (w : List Char)
    (cs1 : Caps) :
    Denote (Item.star blank :: rest) { closed := cl, current := none } w cs1 ↔
    ∃ b v, w = b ++ v ∧ Blanks b ∧ Denote rest { closed := cl, current := none } v cs1 := by
  show (∃ u v, w = u ++ v ∧ (∀ c ∈ u, blank c = true) ∧
    Denote rest (Caps.takeAll { closed := cl, current := none } u) v cs1) ↔ _
  simp only [takeAll_none, blank_iff, Blanks]

theorem denote_name (nm : List Char) (rest : List Item) (cl : List (List Char)) :
    ∀ (w : List Char) (cs1 : Caps),
      Denote (nm.map lit ++ rest) { closed := cl, current := none } w cs1 ↔
      ∃ v, w = nm ++ v ∧ Denote rest { closed := cl, current := none } v cs1 := by
  induction nm with
  | nil => intro w cs1; simp
  | cons a nm ih =>
    intro w cs1
    show Denote (lit a :: (nm.map lit ++ rest)) _ w cs1 ↔ _
    rw [denote_lit]
    constructor
    · rintro ⟨v, rfl, h⟩
      obtain ⟨u, hu, h2⟩ := (ih v cs1).mp h
      exact ⟨u, by rw [hu]; rfl, h2⟩
    · rintro ⟨v, rfl, h⟩
      exact ⟨nm ++ v, rfl, (ih _ cs1).mpr ⟨v, rfl, h⟩⟩

theorem denote_assign (nm : List Char) (rest : List Item) (cl : List (List Char))
    (w : List Char) (cs1 : Caps) :
    Denote (nm.map lit ++ (equalsNum ++ rest)) { closed := cl, current := none } w cs1 ↔
    ∃ a num v, w = a ++ v ∧ IsAssign nm a num ∧
      Denote rest { closed := cl ++ [num], current := none } v cs1 := by
  have hsplit : equalsNum ++ rest
      = Item.star blank :: lit '=' :: Item.star blank :: (numGroup ++ rest) := rfl
  rw [denote_name, hsplit]
  simp only [denote_blanks, denote_lit, denote_numGroup]
  constructor
  · rintro ⟨v, rfl, b1, v, rfl, hb1, v, rfl, b2, v, rfl, hb2, num, v, rfl, hnum, hrest⟩
    exact ⟨nm ++ b1 ++ '=' :: b2 ++ num, num, v, by simp,
      ⟨b1, b2, rfl, hb1, hb2, hnum⟩, hrest⟩
  · rintro ⟨a, num, v, rfl, ⟨b1, b2, rfl, hb1, hb2, hnum⟩, hrest⟩
    exact ⟨b1 ++ '=' :: (b2 ++ (num ++ v)), by simp, b1, _, rfl, hb1, _, rfl, b2, _,
      rfl, hb2, num, v, rfl, hnum, hrest⟩

/-- The language of a pattern of three assignments is the one `IsTriple` describes,
and the capture groups are the three numbers. -/
theorem denote_triple (n1 n2 n3 w : List Char) (cs1 : Caps) :
    Denote (n1.map lit ++ (equalsNum ++ (Item.star blank :: (n2.map lit ++ (equalsNum ++
      (Item.star blank :: (n3.map lit ++ (equalsNum ++ []))))))))
      Caps.init w cs1 ↔
    ∃ g1 g2 g3, IsTriple n1 n2 n3 w g1 g2 g3 ∧
      cs1 = { closed := [g1, g2, g3], current := none } := by
  simp only [Caps.init, denote_assign, denote_blanks, denote_nil, List.nil_append,
    List.cons_append, List.singleton_append]
  constructor
  · rintro ⟨a1, g1, v, rfl, h1, b1, v, rfl, hb1, a2, g2, v, rfl, h2, b2, v, rfl, hb2,
      a3, g3, v, rfl, h3, rfl, rfl⟩
    exact ⟨g1, g2, g3, ⟨a1, b1, a2, b2, a3, by simp, h1, hb1, h2, hb2, h3⟩, rfl⟩
  · rintro ⟨g1, g2, g3, ⟨a1, b1, a2, b2, a3, rfl, h1, hb1, h2, hb2, h3⟩, rfl⟩
    exact ⟨a1, g1, _, by simp, h1, b1, _, rfl, hb1, a2, g2, _, rfl, h2, b2, _, rfl, hb2,
      a3, g3, [], rfl, h3, rfl, rfl⟩

theorem denote_PosPattern (w : List Char) (cs1 : Caps) :
    Denote PosPattern Caps.init w cs1 ↔
    ∃ g1 g2 g3, PosBlock w g1 g2 g3 ∧ cs1 = { closed := [g1, g2, g3], current := none } :=
  denote_triple ['X'] ['Y'] ['Z'] w cs1

theorem denote_VeloPattern (w : List Char) (cs1 : Caps) :
    Denote VeloPattern Caps.init w cs1 ↔
    ∃ g1 g2 g3, VeloBlock w g1 g2 g3 ∧ cs1 = { closed := [g1, g2, g3], current := none } :=
  denote_triple ['V', 'X'] ['V', 'Y'] ['V', 'Z'] w cs1

theorem digit_ne_blank (c : Char) (hc : c.isDigit = true) : ¬ c = ' ' := by
  rintro rfl
  exact absurd hc (by decide)

theorem digit_ne_sign (c : Char) (hc : c.isDigit = true) : ¬ c = '-' ∧ ¬ c = '+' := by
  constructor <;> rintro rfl <;> exact absurd hc (by decide)

theorem det_PosPattern : Det PosPattern := by
  simp only [PosPattern, equalsNum, numGroup, Det, Excl, lit, blank, sign, digit,
    List.cons_append, List.nil_append]
  simp
  exact ⟨digit_ne_blank, digit_ne_sign, digit_ne_blank, digit_ne_sign, digit_ne_blank,
    digit_ne_sign⟩

theorem det_VeloPattern : Det VeloPattern := by
  simp only [VeloPattern, equalsNum, numGroup, Det, Excl, lit, blank, sign, digit,
    List.cons_append, List.nil_append]
  simp
  exact ⟨digit_ne_blank, digit_ne_sign, digit_ne_blank, digit_ne_sign, digit_ne_blank,
    digit_ne_sign⟩

/-! ## `regex_search` and the blocks of the text -/

theorem search_none_block {B : List Char → List Char → List Char → List Char → Prop}
    {re : List Item} (hdet : Det re)
    (hden : ∀ w cs1, Denote re Caps.init w cs1 ↔
      ∃ g1 g2 g3, B w g1 g2 g3 ∧ cs1 = { closed := [g1, g2, g3], current := none })
    {data : List Char} (h : regex_search data re = none) : ¬ Contains B data := by
  rintro ⟨n, g1, g2, g3, pre, w, post, hdata, _, hB⟩
  exact regex_search_none hdet h pre w post _ hdata ((hden w _).mpr ⟨g1, g2, g3, hB, rfl⟩)

theorem search_some_block {B : List Char → List Char → List Char → List Char → Prop}
    {re : List Item} (hdet : Det re)
    (hden : ∀ w cs1, Denote re Caps.init w cs1 ↔
      ∃ g1 g2 g3, B w g1 g2 g3 ∧ cs1 = { closed := [g1, g2, g3], current := none })
    {data : List Char} {m : SMatch} (h : regex_search data re = some m) :
    ∃ n g1 g2 g3, BlockAt B data n g1 g2 g3 ∧ m = { position := n, groups := [g1, g2, g3] } ∧
      ∀ n2 a b c, BlockAt B data n2 a b c → n ≤ n2 := by
  obtain ⟨pre, w, post, cs1, hdata, hd, hm, hleft⟩ := regex_search_some hdet h
  obtain ⟨g1, g2, g3, hB, rfl⟩ := (hden w cs1).mp hd
  refine ⟨pre.length, g1, g2, g3, ⟨pre, w, post, hdata, rfl, hB⟩, hm, ?_⟩
  rintro n2 a b c ⟨pre2, w2, post2, hdata2, rfl, hB2⟩
  exact hleft pre2 w2 post2 _ hdata2 ((hden w2 _).mpr ⟨a, b, c, hB2, rfl⟩)

theorem search_leftmost_block {B : List Char → List Char → List Char → List Char → Prop}
    {re : List Item} (hdet : Det re)
    (hden : ∀ w cs1, Denote re Caps.init w cs1 ↔
      ∃ g1 g2 g3, B w g1 g2 g3 ∧ cs1 = { closed := [g1, g2, g3], current := none })
    {data : List Char} {n : Nat} {g1 g2 g3 : List Char} (hB : BlockAt B data n g1 g2 g3)
    (hleft : ∀ n2 a b c, BlockAt B data n2 a b c → n ≤ n2) :
    regex_search data re = some { position := n, groups := [g1, g2, g3] } := by
  obtain ⟨pre, w, post, hdata, rfl, hw⟩ := hB
  have hd : Denote re Caps.init w { closed := [g1, g2, g3], current := none } :=
    (hden w _).mpr ⟨g1, g2, g3, hw, rfl⟩
  refine regex_search_leftmost hdet hdata hd ?_
  intro pre2 w2 post2 cs2 hdata2 hd2
  obtain ⟨a, b, c, hB2, _⟩ := (hden w2 cs2).mp hd2
  exact hleft pre2.length a b c ⟨pre2, w2, post2, hdata2, rfl, hB2⟩

/-- The result of `getPosVelo` when both searches succeed. -/
theorem getPosVelo_both {α : Type} (atof : List Char → α) (zero : α) {data : List Char}
    {n n1 : Nat} {g1 g2 g3 h1 h2 h3 : List Char}
    (hp : regex_search data PosPattern = some { position := n, groups := [g1, g2, g3] })
    (hv : regex_search data VeloPattern = some { position := n1, groups := [h1, h2, h3] }) :
    getPosVelo atof zero data
      = (true, (atof g1, atof g2, atof g3), (atof h1, atof h2, atof h3)) := by
  simp [getPosVelo, hp, hv, SMatch.size, SMatch.str]

/-- The `bool` of `getPosVelo` when a search fails. -/
theorem getPosVelo_missing {α : Type} (atof : List Char → α) (zero : α) {data : List Char}
    (h : regex_search data PosPattern = none ∨ regex_search data VeloPattern = none) :
    (getPosVelo atof zero data).1 = false := by
  rcases h with h | h
  · cases hv : regex_search data VeloPattern with
    | none => simp [getPosVelo, h, hv]
    | some m => by_cases h4 : 4 = m.size <;> simp [getPosVelo, h, hv, h4]
  · cases hp : regex_search data PosPattern with
    | none => simp [getPosVelo, h, hp]
    | some m => by_cases h4 : 4 = m.size <;> simp [getPosVelo, h, hp, h4]

/-! ## The callback and the counters -/

theorem callback_not_ok {α : Type} (atof : List Char → α) (zero : α) (setIdx cbodyIdx : Nat)
    (ch : Chunk) (st : CallbackState α) (hbad : ch.ok = false) :
    callback atof zero setIdx cbodyIdx ch st
      = (false, { st with requestErrorCount := uadd st.requestErrorCount 1 }) := by
  simp [callback, hbad]

/-- The text of the response after the callback has appended the chunk. -/
theorem append_chunk {α : Type} (st : CallbackState α) (data0 : Option (List Char)) :
    (match data0 with
      | some data => if data.length > 0 then { st with result_text := st.result_text ++ data }
                     else st
      | none => st) = { st with result_text := st.result_text ++ data0.getD [] } := by
  cases data0 with
  | none => simp
  | some data =>
    cases data with
    | nil => simp
    | cons c data => simp

theorem callback_ok_counters {α : Type} (atof : List Char → α) (zero : α)
    (setIdx cbodyIdx : Nat) (ch : Chunk) (st : CallbackState α) (hok : ch.ok = true) :
    (callback atof zero setIdx cbodyIdx ch st).1 = true ∧
    (callback atof zero setIdx cbodyIdx ch st).2.requestErrorCount = st.requestErrorCount ∧
    (callback atof zero setIdx cbodyIdx ch st).2.requestCompletedCount
      = if ch.is_final0 then uadd st.requestCompletedCount 1 else st.requestCompletedCount := by
  simp only [callback, hok, Bool.not_true, Bool.false_eq_true, if_false, append_chunk]
  cases ch.is_final0 with
  | false => simp
  | true =>
    simp only [if_true, true_and]
    split
    · split <;> simp
    · simp

theorem deliver_counters {α : Type} (atof : List Char → α) (zero : α) (setIdx cbodyIdx : Nat)
    (chunks : List Chunk) : ∀ st : CallbackState α,
    (deliver atof zero setIdx cbodyIdx chunks st).requestCompletedCount
      = (if outcome chunks = Outcome.succeeded then uadd st.requestCompletedCount 1
         else st.requestCompletedCount) ∧
    (deliver atof zero setIdx cbodyIdx chunks st).requestErrorCount
      = (if outcome chunks = Outcome.failed then uadd st.requestErrorCount 1
         else st.requestErrorCount) := by
  induction chunks with
  | nil => intro st; simp [deliver, outcome]
  | cons ch rest ih =>
    intro st
    by_cases hok : ch.ok = true
    · obtain ⟨h1, h2, h3⟩ := callback_ok_counters atof zero setIdx cbodyIdx ch st hok
      cases hfin : ch.is_final0 with
      | true =>
        rw [hfin] at h3
        simp only [deliver, outcome, hok, hfin, Bool.not_true, Bool.and_false,
          Bool.false_eq_true, if_false, if_true]
        simp [h2, h3]
      | false =>
        rw [hfin] at h3
        simp only [deliver, outcome, hok, hfin, h1, Bool.not_true, Bool.not_false,
          Bool.and_self, Bool.false_eq_true, if_false, if_true]
        obtain ⟨i1, i2⟩ := ih (callback atof zero setIdx cbodyIdx ch st).2
        rw [i1, i2, h2, h3]
        simp
    · have hbad : ch.ok = false := by simpa using hok
      simp [deliver, outcome, hbad, callback_not_ok atof zero setIdx cbodyIdx ch st hbad]

theorem countOutcome_cons (o : Outcome) (rq : Request) (rqs : List Request) :
    countOutcome o (rq :: rqs)
      = (if outcome rq.chunks = o then 1 else 0) + countOutcome o rqs := by
  unfold countOutcome
  by_cases h : outcome rq.chunks = o
  · simp [List.filter_cons, h]; omega
  · simp [List.filter_cons, h]

theorem runRequests_counters {α : Type} (atof : List Char → α) (zero : α)
    (rqs : List Request) : ∀ st : CallbackState α,
    st.requestCompletedCount < UWord → st.requestErrorCount < UWord →
    (runRequests atof zero rqs st).requestCompletedCount
      = (st.requestCompletedCount + countOutcome Outcome.succeeded rqs) % UWord ∧
    (runRequests atof zero rqs st).requestErrorCount
      = (st.requestErrorCount + countOutcome Outcome.failed rqs) % UWord := by
  induction rqs with
  | nil =>
    intro st h1 h2
    simp [runRequests, countOutcome, Nat.mod_eq_of_lt h1, Nat.mod_eq_of_lt h2]
  | cons rq rest ih =>
    intro st h1 h2
    obtain ⟨d1, d2⟩ := deliver_counters atof zero rq.setIdx rq.cbodyIdx rq.chunks
      { st with result_text := [] }
    have hW : 0 < UWord := by rw [UWord_eq]; omega
    have b1 : (deliver atof zero rq.setIdx rq.cbodyIdx rq.chunks
        { st with result_text := [] }).requestCompletedCount < UWord := by
      rw [d1]; split
      · exact Nat.mod_lt _ hW
      · exact h1
    have b2 : (deliver atof zero rq.setIdx rq.cbodyIdx rq.chunks
        { st with result_text := [] }).requestErrorCount < UWord := by
      rw [d2]; split
      · exact Nat.mod_lt _ hW
      · exact h2
    obtain ⟨i1, i2⟩ := ih _ b1 b2
    simp only [runRequests, i1, i2, d1, d2, countOutcome_cons, uadd]
    constructor
    · split
      · rw [Nat.mod_add_mod]; congr 1; omega
      · congr 1; omega
    · split
      · rw [Nat.mod_add_mod]; congr 1; omega
      · congr 1; omega

/-! ## `getCommand` -/

theorem agree_of_isPrefixOf (pat : List Char) : ∀ (s rest : List Char),
    pat.isPrefixOf (s ++ rest) = true → agree pat s = true := by
  induction pat with
  | nil => intro s rest _; simp [agree]
  | cons a pat ih =>
    intro s rest h
    cases s with
    | nil => simp [agree]
    | cons b s =>
      simp only [List.cons_append, List.isPrefixOf, Bool.and_eq_true] at h
      simp only [agree, Bool.and_eq_true]
      exact ⟨h.1, ih s rest h.2⟩

theorem findIn_cons (pat : List Char) (c : Char) (s : List Char) :
    findIn pat (c :: s)
      = if pat.isPrefixOf (c :: s) then some 0 else (findIn pat s).map (fun i => i + 1) := rfl

theorem findIn_skip (pat : List Char) (pre : List Char) : ∀ rest : List Char,
    clearOf pat pre = true →
      findIn pat (pre ++ rest) = (findIn pat rest).map (fun i => i + pre.length) := by
  induction pre with
  | nil => intro rest _; simp
  | cons c pre ih =>
    intro rest h
    simp only [clearOf, Bool.and_eq_true, Bool.not_eq_true'] at h
    have hno : pat.isPrefixOf (c :: (pre ++ rest)) = false := by
      cases hp : pat.isPrefixOf (c :: (pre ++ rest)) with
      | false => rfl
      | true =>
        have := agree_of_isPrefixOf pat (c :: pre) rest hp
        rw [h.1] at this
        exact absurd this (by simp)
    show findIn pat (c :: (pre ++ rest)) = _
    rw [findIn_cons, hno, ih rest h.2]
    cases findIn pat rest with
    | none => rfl
    | some i =>
      simp only [Bool.false_eq_true, if_false, Option.map_some', List.length_cons]
      rfl

theorem clearOf_digits (id : List Char) (hid : ∀ c ∈ id, c.isDigit = true) :
    clearOf ObjectDateMark id = true := by
  induction id with
  | nil => rfl
  | cons c id ih =>
    have hc : c.isDigit = true := hid c (List.mem_cons_self _ _)
    have hne : ('O' == c) = false := by
      cases h : ('O' == c) with
      | false => rfl
      | true =>
        have hO : 'O' = c := by simpa using h
        rw [← hO] at hc
        exact absurd hc (by decide)
    have hag : agree ObjectDateMark (c :: id) = false := by
      show ('O' == c && agree _ id) = false
      rw [hne]; rfl
    simp only [clearOf, hag, Bool.not_false, Bool.true_and]
    exact ih (fun d hd => hid d (List.mem_cons_of_mem _ hd))

theorem findIn_mark (rest : List Char) : findIn ObjectDateMark (ObjectDateMark ++ rest) = some 0 := by
  have hp : ObjectDateMark.isPrefixOf (ObjectDateMark ++ rest) = true :=
    List.isPrefixOf_iff_prefix.mpr (List.prefix_append _ _)
  have hcons : ObjectDateMark ++ rest = 'O' :: ("BJECT_DATE".toList ++ rest) := rfl
  rw [hcons] at hp ⊢
  rw [findIn_cons, hp]
  rfl

theorem find_at (pre rest pat : List Char) :
    find (pre ++ rest) pat pre.length = (findIn pat rest).map (fun i => i + pre.length) := by
  simp [find]

theorem replace_at (pre mark rest str : List Char) :
    replace (pre ++ mark ++ rest) pre.length mark.length str = pre ++ str ++ rest := by
  simp only [replace, List.append_assoc]
  rw [List.take_left', List.drop_append]
  · rw [List.drop_left']
    simp
  · rfl

theorem skippable_of_clearOf {q : List Char} (h : clearOf ObjectDateMark q = true) :
    Skippable q := fun rest => findIn_skip ObjectDateMark q rest h

theorem skippable_append {q1 q2 : List Char} (h1 : Skippable q1) (h2 : Skippable q2) :
    Skippable (q1 ++ q2) := by
  intro rest
  rw [List.append_assoc, h1, h2]
  cases findIn ObjectDateMark rest with
  | none => rfl
  | some i =>
    simp only [Option.map_some', List.length_append, Option.some.injEq]
    omega

/-- One round of the loop of `getCommand`: the search started behind `p` finds
the placeholder behind `q` and puts the date in its place. -/
theorem replaceDates_step (d p q rest : List Char) (fuel : Nat) (hq : Skippable q) :
    replaceDates d (fuel + 1) (p ++ q ++ ObjectDateMark ++ rest) p.length
      = replaceDates d fuel (p ++ q ++ d ++ rest) (p ++ q ++ d).length := by
  have hfind : find (p ++ q ++ ObjectDateMark ++ rest) ObjectDateMark p.length
      = some ((p ++ q).length) := by
    have h := find_at p (q ++ (ObjectDateMark ++ rest)) ObjectDateMark
    rw [hq, findIn_mark] at h
    simp only [List.append_assoc]
    rw [h]
    simp only [Option.map_some', List.length_append, Option.some.injEq]
    omega
  rw [replaceDates, hfind]
  simp only []
  rw [replace_at (p ++ q) ObjectDateMark rest d]
  congr 1
  simp only [List.length_append]

/-- The last round of the loop of `getCommand`: no placeholder is left. -/
theorem replaceDates_done (d p rest : List Char) (fuel : Nat)
    (hrest : findIn ObjectDateMark rest = none) :
    replaceDates d (fuel + 1) (p ++ rest) p.length = some (p ++ rest) := by
  have hfind : find (p ++ rest) ObjectDateMark p.length = none := by
    rw [find_at, hrest]; rfl
  rw [replaceDates, hfind]

set_option maxRecDepth 100000 in
theorem find_ObjectIdMark : find HorizonCmdTemplate ObjectIdMark 0 = some 16 := by decide

set_option maxRecDepth 100000 in
theorem occurrences_ObjectIdMark : occurrences ObjectIdMark HorizonCmdTemplate = 1 := by decide

set_option maxRecDepth 100000 in
theorem occurrences_ObjectDateMark : occurrences ObjectDateMark HorizonCmdTemplate = 2 := by
  decide

/-! ## The arguments of `main` -/

theorem toUnsigned_of_nonneg {a : Int} (h0 : 0 ≤ a) (h1 : a < 2147483648) :
    toUnsigned a = a.toNat := by
  unfold toUnsigned
  rw [UWord_eq]
  have : a % ((4294967296 : Nat) : Int) = a := Int.emod_eq_of_lt h0 (by omega)
  rw [this]

/-- For arguments that are not negative the check of `main` is the one the
specification describes. -/
theorem mainArgs_rejects_of_nonneg (a1 a2 a3 : Int)
    (h1 : 0 ≤ a1 ∧ a1 < 2147483648) (h2 : 0 ≤ a2 ∧ a2 < 2147483648)
    (h3 : 0 ≤ a3 ∧ a3 < 2147483648) (hbad : a2 < a1 ∨ a1 = 0 ∨ a3 < 1) :
    mainArgs a1 a2 a3 = ArgCheck.exit 1 := by
  unfold mainArgs
  simp only [toUnsigned_of_nonneg h1.1 h1.2, toUnsigned_of_nonneg h2.1 h2.2,
    toUnsigned_of_nonneg h3.1 h3.2]
  have hcond : ¬ (a2.toNat ≥ a1.toNat ∧ a1.toNat > 0 ∧ usub (uadd 1 a3.toNat) 1 ≥ 1) := by
    rintro ⟨c1, c2, c3⟩
    rcases hbad with hb | hb | hb
    · omega
    · omega
    · have h30 : a3.toNat = 0 := by omega
      rw [h30] at c3
      have : usub (uadd 1 0) 1 = 0 := by decide
      omega
  rw [if_neg hcond]

/-! ## The request of a cell -/

/-- For the body indices 1 to 9: the identifier stored in the cell is
`(planetIdx * 100 + 99) % 1000` without the barycenter flag and `planetIdx % 10`
with it, the two differ, the text `objectID` is the same in both modes, and
without the flag it spells the identifier stored in the cell. -/
theorem cellRequest_ids (fuel year planetIdx : Nat) (h1 : 1 ≤ planetIdx) (h9 : planetIdx ≤ 9) :
    (cellRequest fuel false year planetIdx).id = (planetIdx * 100 + 99) % 1000 ∧
    (cellRequest fuel true year planetIdx).id = planetIdx % 10 ∧
    (cellRequest fuel false year planetIdx).id ≠ (cellRequest fuel true year planetIdx).id ∧
    (cellRequest fuel true year planetIdx).objectID
      = (cellRequest fuel false year planetIdx).objectID ∧
    digitsValue (cellRequest fuel false year planetIdx).objectID
      = (cellRequest fuel false year planetIdx).id := by
  simp only [cellRequest, Bool.false_eq_true, if_false, if_true]
  interval_cases planetIdx <;> decide

/-! # The claims -/

/-- C1: handle recycling is FIFO.  Assume every `read_url_stream_async` call
returned a non-null response and at least one handle was created.  Then the
in-flight list `responses` is ordered newest first after any number of steps,
and at every cell of the loop at which `free_handles` is empty,
`get_free_handle` removes the last element `q` of `responses` and returns its
handle, `q` was submitted before every other element of `responses`, and the
new request takes its place at the front with the handle of `q`. -/
theorem C1_fifo_recycling (r : Range) (nonNull : Nat → Bool)
    (hnn : ∀ k, nonNull k = true) (hk : 0 < handle_count r) (n : Nat)
    (hpc : (run r nonNull n).pc = Pc.planetLoop)
    (hcell : (run r nonNull n).planetIdx ≤ r.cbody_max)
    (hfree : (run r nonNull n).free_handles = []) :
    (∀ m, (run r nonNull m).responses.Pairwise (fun a b => b.submitted < a.submitted)) ∧
    ∃ q, (run r nonNull n).responses.getLast? = some q ∧
      get_free_handle (run r nonNull n).free_handles (run r nonNull n).responses
        = some (q.handle, [], (run r nonNull n).responses.dropLast) ∧
      (∀ a ∈ (run r nonNull n).responses, a ≠ q → q.submitted < a.submitted) ∧
      (run r nonNull (n + 1)).responses
        = { handle := q.handle, submitted := (run r nonNull n).calls,
            year := (run r nonNull n).year, planetIdx := (run r nonNull n).planetIdx }
          :: (run r nonNull n).responses.dropLast := by
  refine ⟨fun m => (poolInv_run hnn hk m).newestFirst, ?_⟩
  have hinv := poolInv_run (r := r) hnn hk n
  obtain ⟨q, hq, hsplit, hget⟩ := get_free_handle_empty hk hinv hfree
  refine ⟨q, hq, ?_, ?_, ?_⟩
  · rw [hget]
  · intro a ha hne
    have hsort := hinv.newestFirst
    rw [hsplit] at hsort ha
    rcases List.mem_append.mp ha with ha | ha
    · exact (List.pairwise_append.mp hsort).2.2 a ha q (by simp)
    · exact absurd (List.mem_singleton.mp ha) hne
  · show (step r nonNull (run r nonNull n)).responses = _
    simp only [step, hpc, hcell, if_true, loopBody, hget, hnn]

/-- C1 at a concrete input: the default range after three steps, when both
handles are in flight. -/
theorem C1_fifo_recycling_witness :
    (∀ m, (run defaultRange (fun _ => true) m).responses.Pairwise
      (fun a b => b.submitted < a.submitted)) ∧
    ∃ q, (run defaultRange (fun _ => true) 3).responses.getLast? = some q ∧
      get_free_handle (run defaultRange (fun _ => true) 3).free_handles
          (run defaultRange (fun _ => true) 3).responses
        = some (q.handle, [], (run defaultRange (fun _ => true) 3).responses.dropLast) ∧
      (∀ a ∈ (run defaultRange (fun _ => true) 3).responses, a ≠ q →
        q.submitted < a.submitted) ∧
      (run defaultRange (fun _ => true) (3 + 1)).responses
        = { handle := q.handle, submitted := (run defaultRange (fun _ => true) 3).calls,
            year := (run defaultRange (fun _ => true) 3).year,
            planetIdx := (run defaultRange (fun _ => true) 3).planetIdx }
          :: (run defaultRange (fun _ => true) 3).responses.dropLast :=
  C1_fifo_recycling defaultRange (fun _ => true) (fun _ => rfl) (by decide) 3
    (by decide) (by decide) (by decide)

/-- C2: for every valid range, when every `read_url_stream_async` call returned
a non-null response, after any number of steps of the loops at most
`MaxConnections` requests are in `responses`, the handles in `free_handles`
and those owned by the elements of `responses` are together exactly the
handles created, each once, and the two sizes add up to their number. -/
theorem C2_connection_bound (r : Range) (hv : r.Valid) (nonNull : Nat → Bool)
    (hnn : ∀ k, nonNull k = true) (n : Nat) :
    (run r nonNull n).responses.length ≤ MaxConnections ∧
    MaxConnections = 2 ∧
    (run r nonNull n).free_handles.length + (run r nonNull n).responses.length
      = handle_count r ∧
    ((run r nonNull n).free_handles
        ++ (run r nonNull n).responses.map AsyncStreamResponse.handle).Perm
      (initState r).free_handles ∧
    ((run r nonNull n).free_handles
        ++ (run r nonNull n).responses.map AsyncStreamResponse.handle).Nodup ∧
    (run r nonNull n).pc ≠ Pc.undefinedBehaviour := by
  have hinv := poolInv_run (r := r) hnn (handle_count_pos hv) n
  have hlen := hinv.owned.length_eq
  simp only [List.length_append, List.length_map, List.length_range] at hlen
  have hle := handle_count_le r
  refine ⟨by omega, rfl, hlen, hinv.owned, ?_, hinv.defined⟩
  exact hinv.owned.nodup_iff.mpr (List.nodup_range _)

/-- C2 at a concrete input: the default range after seven steps. -/
theorem C2_connection_bound_witness :
    defaultRange.Valid ∧
    (run defaultRange (fun _ => true) 7).responses.length ≤ MaxConnections ∧
    MaxConnections = 2 ∧
    (run defaultRange (fun _ => true) 7).free_handles.length
        + (run defaultRange (fun _ => true) 7).responses.length
      = handle_count defaultRange ∧
    ((run defaultRange (fun _ => true) 7).free_handles
        ++ (run defaultRange (fun _ => true) 7).responses.map AsyncStreamResponse.handle).Perm
      (initState defaultRange).free_handles ∧
    ((run defaultRange (fun _ => true) 7).free_handles
        ++ (run defaultRange (fun _ => true) 7).responses.map
          AsyncStreamResponse.handle).Nodup ∧
    (run defaultRange (fun _ => true) 7).pc ≠ Pc.undefinedBehaviour :=
  ⟨by decide, C2_connection_bound defaultRange (by decide) (fun _ => true) (fun _ => rfl) 7⟩

/-- C3: for every valid range (with every `read_url_stream_async` call
returning a non-null response, so that `get_free_handle` is defined), the
nested loops come to their end having issued exactly
`year_count * cbody_count` requests; `request_idx` took the values
`1, 2, ..., year_count * cbody_count` in this order; every request targets the
cell `(year - year_min, planetIdx - cbody_min)` of the grid, in row-major order
(`request_idx = setIdx * cbody_count + cbodyIdx + 1`); and every cell of the
grid is the target of exactly one request. -/
theorem C3_requests_cover_grid (r : Range) (hv : r.Valid) (nonNull : Nat → Bool)
    (hnn : ∀ k, nonNull k = true) :
    ∃ n, (run r nonNull n).pc = Pc.drain ∧
      (∀ m, n ≤ m → (run r nonNull m).issued = (run r nonNull n).issued) ∧
      (run r nonNull n).issued.length = year_count r * cbody_count r ∧
      (run r nonNull n).issued.map Issued.request_idx
        = (List.range (year_count r * cbody_count r)).map (fun k => k + 1) ∧
      (∀ e ∈ (run r nonNull n).issued,
        r.year_min ≤ e.year ∧ e.year ≤ r.year_max ∧
        r.cbody_min ≤ e.planetIdx ∧ e.planetIdx ≤ r.cbody_max ∧
        e.setIdx = e.year - r.year_min ∧ e.cbodyIdx = e.planetIdx - r.cbody_min ∧
        e.setIdx < year_count r ∧ e.cbodyIdx < cbody_count r ∧
        e.request_idx = e.setIdx * cbody_count r + e.cbodyIdx + 1) ∧
      (∀ i j, i < year_count r → j < cbody_count r →
        ∃! k : Nat, ∃ e : Issued, (run r nonNull n).issued[k]? = some e ∧ e.setIdx = i ∧ e.cbodyIdx = j) := by
  have hcc := cbody_count_valid hv
  have hyc := year_count_valid hv
  have hccpos : 0 < cbody_count r := by omega
  obtain ⟨hpc, hiss⟩ := run_finishes hv hnn _ (le_refl (stepsLeft r (initState r)))
  refine ⟨stepsLeft r (initState r), hpc, ?_, ?_, ?_, ?_, ?_⟩
  · intro m hm
    rw [hiss, (run_finishes hv hnn m hm).2]
  · simp [hiss, rowMajor]
  · simp only [hiss, rowMajor, List.map_map]
    rfl
  · intro e he
    rw [hiss] at he
    obtain ⟨k, hk, rfl⟩ := mem_rowMajor he
    have hdiv : k / cbody_count r < year_count r := (Nat.div_lt_iff_lt_mul hccpos).mpr hk
    have hmod : k % cbody_count r < cbody_count r := Nat.mod_lt _ hccpos
    have hdm := Nat.div_add_mod' k (cbody_count r)
    obtain ⟨_, h2, h3, _, _, _⟩ := hv
    simp only [cellAt]
    generalize k / cbody_count r = a at *
    generalize k % cbody_count r = b at *
    refine ⟨by omega, by omega, by omega, by omega, by omega, by omega, hdiv, hmod, by omega⟩
  · intro i j hi hj
    have hlt : i * cbody_count r + j < year_count r * cbody_count r := by
      have h1 : (i + 1) * cbody_count r ≤ year_count r * cbody_count r :=
        Nat.mul_le_mul_right _ hi
      have h2 : (i + 1) * cbody_count r = i * cbody_count r + cbody_count r := by ring
      omega
    have hdiv : (i * cbody_count r + j) / cbody_count r = i := by
      rw [Nat.add_comm, Nat.add_mul_div_right _ _ hccpos, Nat.div_eq_of_lt hj, Nat.zero_add]
    have hmod : (i * cbody_count r + j) % cbody_count r = j := by
      rw [Nat.add_comm, Nat.add_mul_mod_self_right, Nat.mod_eq_of_lt hj]
    refine ⟨i * cbody_count r + j, ⟨cellAt r (i * cbody_count r + j), ?_, ?_, ?_⟩, ?_⟩
    · rw [hiss, rowMajor_getElem? r hlt]
    · simp only [cellAt, hdiv]
    · simp only [cellAt, hmod]
    · rintro k ⟨e, hek, hei, hej⟩
      rw [hiss] at hek
      by_cases hk : k < year_count r * cbody_count r
      · rw [rowMajor_getElem? r hk] at hek
        have hek := Option.some.inj hek
        subst hek
        simp only [cellAt] at hei hej
        have hdm := Nat.div_add_mod' k (cbody_count r)
        rw [hei, hej] at hdm
        exact hdm.symm
      · rw [rowMajor_getElem?_none r (by omega)] at hek
        exact absurd hek (by simp)

/-- C3 at a concrete input: the default range of `main`. -/
theorem C3_requests_cover_grid_witness :
    defaultRange.Valid ∧
    ∃ n, (run defaultRange (fun _ => true) n).pc = Pc.drain ∧
      (∀ m, n ≤ m → (run defaultRange (fun _ => true) m).issued
        = (run defaultRange (fun _ => true) n).issued) ∧
      (run defaultRange (fun _ => true) n).issued.length
        = year_count defaultRange * cbody_count defaultRange ∧
      (run defaultRange (fun _ => true) n).issued.map Issued.request_idx
        = (List.range (year_count defaultRange * cbody_count defaultRange)).map
            (fun k => k + 1) ∧
      (∀ e ∈ (run defaultRange (fun _ => true) n).issued,
        defaultRange.year_min ≤ e.year ∧ e.year ≤ defaultRange.year_max ∧
        defaultRange.cbody_min ≤ e.planetIdx ∧ e.planetIdx ≤ defaultRange.cbody_max ∧
        e.setIdx = e.year - defaultRange.year_min ∧
        e.cbodyIdx = e.planetIdx - defaultRange.cbody_min ∧
        e.setIdx < year_count defaultRange ∧ e.cbodyIdx < cbody_count defaultRange ∧
        e.request_idx = e.setIdx * cbody_count defaultRange + e.cbodyIdx + 1) ∧
      (∀ i j, i < year_count defaultRange → j < cbody_count defaultRange →
        ∃! k : Nat, ∃ e : Issued, (run defaultRange (fun _ => true) n).issued[k]? = some e ∧
          e.setIdx = i ∧ e.cbodyIdx = j) :=
  ⟨by decide, C3_requests_cover_grid defaultRange (by decide) (fun _ => true) (fun _ => rfl)⟩

/-- C4: `getPosVelo` returns `true` exactly when the text contains a position
block `X = <num> Y = <num> Z = <num>` and a velocity block
`VX = <num> VY = <num> VZ = <num>`, `<num>` being `[-+]?digits.digitsE[+-]dd`;
in particular a text with a position block and no velocity block yields
`false`. -/
theorem C4_getPosVelo_iff_both_blocks {α : Type} (atof : List Char → α) (zero : α)
    (data : List Char) :
    ((getPosVelo atof zero data).1 = true ↔
      Contains PosBlock data ∧ Contains VeloBlock data) ∧
    (Contains PosBlock data → ¬ Contains VeloBlock data →
      (getPosVelo atof zero data).1 = false) := by
  have hiff : (getPosVelo atof zero data).1 = true ↔
      Contains PosBlock data ∧ Contains VeloBlock data := by
    cases hp : regex_search data PosPattern with
    | none =>
      have hno := search_none_block det_PosPattern denote_PosPattern hp
      have hf := getPosVelo_missing atof zero (Or.inl hp)
      constructor
      · intro ht; rw [hf] at ht; exact absurd ht (by simp)
      · intro hc; exact absurd hc.1 hno
    | some m =>
      cases hv : regex_search data VeloPattern with
      | none =>
        have hno := search_none_block det_VeloPattern denote_VeloPattern hv
        have hf := getPosVelo_missing atof zero (Or.inr hv)
        constructor
        · intro ht; rw [hf] at ht; exact absurd ht (by simp)
        · intro hc; exact absurd hc.2 hno
      | some m1 =>
        obtain ⟨n, g1, g2, g3, hB, rfl, _⟩ :=
          search_some_block det_PosPattern denote_PosPattern hp
        obtain ⟨n1, h1, h2, h3, hB1, rfl, _⟩ :=
          search_some_block det_VeloPattern denote_VeloPattern hv
        rw [getPosVelo_both atof zero hp hv]
        exact ⟨fun _ => ⟨⟨n, g1, g2, g3, hB⟩, ⟨n1, h1, h2, h3, hB1⟩⟩, fun _ => rfl⟩
  refine ⟨hiff, fun hpos hvelo => ?_⟩
  cases hb : (getPosVelo atof zero data).1 with
  | false => rfl
  | true => exact absurd (hiff.mp hb).2 hvelo

/-- C5: for every text that contains a position block and a velocity block,
`getPosVelo` returns `true` with, as position and velocity, the conversions by
`atof` of the three numbers of the first (leftmost) position block and of the
first velocity block: no block starts before them, the numbers of a block that
starts where they start are the same, and the blocks that follow are not
looked at. -/
theorem C5_getPosVelo_first_match {α : Type} (atof : List Char → α) (zero : α)
    (data : List Char) (hpos : Contains PosBlock data) (hvelo : Contains VeloBlock data) :
    ∃ n g1 g2 g3 n1 h1 h2 h3,
      BlockAt PosBlock data n g1 g2 g3 ∧
      (∀ n2 a b c, BlockAt PosBlock data n2 a b c →
        n ≤ n2 ∧ (n2 = n → a = g1 ∧ b = g2 ∧ c = g3)) ∧
      BlockAt VeloBlock data n1 h1 h2 h3 ∧
      (∀ n2 a b c, BlockAt VeloBlock data n2 a b c →
        n1 ≤ n2 ∧ (n2 = n1 → a = h1 ∧ b = h2 ∧ c = h3)) ∧
      getPosVelo atof zero data
        = (true, (atof g1, atof g2, atof g3), (atof h1, atof h2, atof h3)) := by
  cases hp : regex_search data PosPattern with
  | none => exact absurd hpos (search_none_block det_PosPattern denote_PosPattern hp)
  | some m =>
    cases hv : regex_search data VeloPattern with
    | none => exact absurd hvelo (search_none_block det_VeloPattern denote_VeloPattern hv)
    | some m1 =>
      obtain ⟨n, g1, g2, g3, hB, rfl, hleft⟩ :=
        search_some_block det_PosPattern denote_PosPattern hp
      obtain ⟨n1, h1, h2, h3, hB1, rfl, hleft1⟩ :=
        search_some_block det_VeloPattern denote_VeloPattern hv
      refine ⟨n, g1, g2, g3, n1, h1, h2, h3, hB, ?_, hB1, ?_,
        getPosVelo_both atof zero hp hv⟩
      · intro n2 a b c hB2
        refine ⟨hleft n2 a b c hB2, ?_⟩
        rintro rfl
        have h := search_leftmost_block det_PosPattern denote_PosPattern hB2 hleft
        rw [hp] at h
        simp only [Option.some.injEq, SMatch.mk.injEq, List.cons.injEq, and_true,
          true_and] at h
        exact ⟨h.1.symm, h.2.1.symm, h.2.2.symm⟩
      · intro n2 a b c hB2
        refine ⟨hleft1 n2 a b c hB2, ?_⟩
        rintro rfl
        have h := search_leftmost_block det_VeloPattern denote_VeloPattern hB2 hleft1
        rw [hv] at h
        simp only [Option.some.injEq, SMatch.mk.injEq, List.cons.injEq, and_true,
          true_and] at h
        exact ⟨h.1.symm, h.2.1.symm, h.2.2.symm⟩

/-- C5 at the example of the specification: the text has both blocks, the first
position block starts at offset 3 and the first velocity block at offset 74,
and with the exact conversion of the literals the position is
`(1.234567890123E8, -2.345678901234E7, 3.456789012345E6)` and the velocity
`(1.0E-2, -2.0E-3, 3.0E-4)`. -/
theorem C5_getPosVelo_first_match_witness :
    Contains PosBlock exampleText ∧ Contains VeloBlock exampleText ∧
    (∃ n g1 g2 g3 n1 h1 h2 h3,
      BlockAt PosBlock exampleText n g1 g2 g3 ∧
      (∀ n2 a b c, BlockAt PosBlock exampleText n2 a b c →
        n ≤ n2 ∧ (n2 = n → a = g1 ∧ b = g2 ∧ c = g3)) ∧
      BlockAt VeloBlock exampleText n1 h1 h2 h3 ∧
      (∀ n2 a b c, BlockAt VeloBlock exampleText n2 a b c →
        n1 ≤ n2 ∧ (n2 = n1 → a = h1 ∧ b = h2 ∧ c = h3)) ∧
      getPosVelo literalValue 0 exampleText
        = (true, (literalValue g1, literalValue g2, literalValue g3),
            (literalValue h1, literalValue h2, literalValue h3))) ∧
    BlockAt PosBlock exampleText 3 "1.234567890123E+08".toList
      "-2.345678901234E+07".toList "3.456789012345E+06".toList ∧
    BlockAt VeloBlock exampleText 74 "1.0E-02".toList "-2.0E-03".toList "3.0E-04".toList ∧
    getPosVelo literalValue 0 exampleText
      = (true, (1.234567890123e8, -2.345678901234e7, 3.456789012345e6),
          (1.0e-2, -2.0e-3, 3.0e-4)) := by
  have hp : regex_search exampleText PosPattern
      = some { position := 3, groups := ["1.234567890123E+08".toList,
          "-2.345678901234E+07".toList, "3.456789012345E+06".toList] } := by decide
  have hv : regex_search exampleText VeloPattern
      = some { position := 74, groups := ["1.0E-02".toList, "-2.0E-03".toList,
          "3.0E-04".toList] } := by decide
  obtain ⟨n, a, b, c, hB, hm, _⟩ := search_some_block det_PosPattern denote_PosPattern hp
  obtain ⟨n1, a1, b1, c1, hB1, hm1, _⟩ :=
    search_some_block det_VeloPattern denote_VeloPattern hv
  simp only [SMatch.mk.injEq, List.cons.injEq, and_true] at hm hm1
  obtain ⟨rfl, rfl, rfl, rfl⟩ := hm
  obtain ⟨rfl, rfl, rfl, rfl⟩ := hm1
  have hcp : Contains PosBlock exampleText := ⟨_, _, _, _, hB⟩
  have hcv : Contains VeloBlock exampleText := ⟨_, _, _, _, hB1⟩
  refine ⟨hcp, hcv, C5_getPosVelo_first_match literalValue 0 exampleText hcp hcv, hB, hB1, ?_⟩
  rw [getPosVelo_both literalValue 0 hp hv]
  have e1 : parseLiteral "1.234567890123E+08".toList
      = { negative := false, digits := 1234567890123, fraction := 12,
          expNegative := false, exponent := 8 } := by decide
  have e2 : parseLiteral "-2.345678901234E+07".toList
      = { negative := true, digits := 2345678901234, fraction := 12,
          expNegative := false, exponent := 7 } := by decide
  have e3 : parseLiteral "3.456789012345E+06".toList
      = { negative := false, digits := 3456789012345, fraction := 12,
          expNegative := false, exponent := 6 } := by decide
  have e4 : parseLiteral "1.0E-02".toList
      = { negative := false, digits := 10, fraction := 1,
          expNegative := true, exponent := 2 } := by decide
  have e5 : parseLiteral "-2.0E-03".toList
      = { negative := true, digits := 20, fraction := 1,
          expNegative := true, exponent := 3 } := by decide
  have e6 : parseLiteral "3.0E-04".toList
      = { negative := false, digits := 30, fraction := 1,
          expNegative := true, exponent := 4 } := by decide
  simp only [literalValue, e1, e2, e3, e4, e5, e6, Literal.value]
  norm_num

/-- C6, as the code has it: a request that ends `Succeeded` adds one to
`requestCompletedCount` and nothing to `requestErrorCount`; a request that ends
`Failed` adds one to `requestErrorCount` and nothing to
`requestCompletedCount`; a request that is not terminal adds nothing.  Hence
after a full run started with both counters at zero, `requestCompletedCount` is
the number of succeeded requests and `requestErrorCount` the number of failed
requests (both modulo `2 ^ 32`). -/
theorem C6_counters_by_outcome {α : Type} (atof : List Char → α) (zero : α)
    (ds : SolarDataSet α) (rqs : List Request) :
    (∀ (setIdx cbodyIdx : Nat) (chunks : List Chunk) (st : CallbackState α),
      (deliver atof zero setIdx cbodyIdx chunks st).requestCompletedCount
        = (if outcome chunks = Outcome.succeeded then uadd st.requestCompletedCount 1
           else st.requestCompletedCount) ∧
      (deliver atof zero setIdx cbodyIdx chunks st).requestErrorCount
        = (if outcome chunks = Outcome.failed then uadd st.requestErrorCount 1
           else st.requestErrorCount)) ∧
    (runRequests atof zero rqs (startState ds)).requestCompletedCount
      = countOutcome Outcome.succeeded rqs % UWord ∧
    (runRequests atof zero rqs (startState ds)).requestErrorCount
      = countOutcome Outcome.failed rqs % UWord := by
  refine ⟨fun setIdx cbodyIdx chunks st =>
    deliver_counters atof zero setIdx cbodyIdx chunks st, ?_⟩
  have hW : 0 < UWord := by rw [UWord_eq]; omega
  have h := runRequests_counters atof zero rqs (startState ds) hW hW
  simpa [startState] using h

/-- C6 fails as stated: the callback called on a final chunk with the status 404
returns `false` with `requestCompletedCount` still `0` and `requestErrorCount`
at `1`; a run of one request that is answered with the status 404 ends with that
request `Failed`, `requestErrorCount = 1` and `requestCompletedCount = 0`, which
is not the number of succeeded plus the number of failed requests. -/
theorem C6_counters_counterexample :
    (callback literalValue 0 0 0 notFoundChunk (startState oneCellGrid)).1 = false ∧
    (callback literalValue 0 0 0 notFoundChunk
        (startState oneCellGrid)).2.requestCompletedCount = 0 ∧
    (callback literalValue 0 0 0 notFoundChunk
        (startState oneCellGrid)).2.requestErrorCount = 1 ∧
    outcome notFoundRequest.chunks = Outcome.failed ∧
    (runRequests literalValue 0 [notFoundRequest] (startState oneCellGrid)).requestErrorCount
      = 1 ∧
    (runRequests literalValue 0 [notFoundRequest]
        (startState oneCellGrid)).requestCompletedCount = 0 ∧
    ¬ ((runRequests literalValue 0 [notFoundRequest]
        (startState oneCellGrid)).requestCompletedCount
      = countOutcome Outcome.succeeded [notFoundRequest]
        + countOutcome Outcome.failed [notFoundRequest]) := by
  refine ⟨by decide, by decide, by decide, by decide, by decide, by decide, by decide⟩

/-- C7: a call of the callback that finds a response header which is not a
completed HTTP 200 returns `false`, adds one to `requestErrorCount` and leaves
`result_text`, `requestCompletedCount` and the whole grid (the cell of the
request and every other cell) as they were, whatever the chunk and the final
flag are. -/
theorem C7_failed_callback_frame {α : Type} (atof : List Char → α) (zero : α)
    (setIdx cbodyIdx : Nat) (ch : Chunk) (st : CallbackState α)
    (hbad : ¬ (ch.completed = true ∧ ch.response_code = 200)) :
    (callback atof zero setIdx cbodyIdx ch st).1 = false ∧
    (callback atof zero setIdx cbodyIdx ch st).2.requestErrorCount
      = uadd st.requestErrorCount 1 ∧
    (st.requestErrorCount + 1 < UWord →
      (callback atof zero setIdx cbodyIdx ch st).2.requestErrorCount
        = st.requestErrorCount + 1) ∧
    (callback atof zero setIdx cbodyIdx ch st).2.result_text = st.result_text ∧
    (callback atof zero setIdx cbodyIdx ch st).2.requestCompletedCount
      = st.requestCompletedCount ∧
    (callback atof zero setIdx cbodyIdx ch st).2.solarDataSets = st.solarDataSets ∧
    (∀ i j, cellOf (callback atof zero setIdx cbodyIdx ch st).2.solarDataSets i j
      = cellOf st.solarDataSets i j) := by
  have hok : ch.ok = false := by
    cases hc : ch.completed with
    | false => simp [Chunk.ok, hc]
    | true =>
      have hne : ¬ ch.response_code = 200 := fun h => hbad ⟨hc, h⟩
      have hne2 : ¬ 200 = ch.response_code := fun h => hne h.symm
      simp [Chunk.ok, hc, hne2]
  rw [callback_not_ok atof zero setIdx cbodyIdx ch st hok]
  refine ⟨rfl, rfl, fun h => uadd_of_lt h, rfl, rfl, rfl, fun _ _ => rfl⟩

/-- C7 at a concrete input: a final chunk with the status 404 and an error page. -/
theorem C7_failed_callback_frame_witness :
    ¬ (notFoundChunk.completed = true ∧ notFoundChunk.response_code = 200) ∧
    (callback literalValue 0 0 0 notFoundChunk (startState oneCellGrid)).1 = false ∧
    (callback literalValue 0 0 0 notFoundChunk (startState oneCellGrid)).2.requestErrorCount
      = uadd (startState oneCellGrid).requestErrorCount 1 ∧
    ((startState oneCellGrid).requestErrorCount + 1 < UWord →
      (callback literalValue 0 0 0 notFoundChunk (startState oneCellGrid)).2.requestErrorCount
        = (startState oneCellGrid).requestErrorCount + 1) ∧
    (callback literalValue 0 0 0 notFoundChunk (startState oneCellGrid)).2.result_text
      = (startState oneCellGrid).result_text ∧
    (callback literalValue 0 0 0 notFoundChunk (startState oneCellGrid)).2.requestCompletedCount
      = (startState oneCellGrid).requestCompletedCount ∧
    (callback literalValue 0 0 0 notFoundChunk (startState oneCellGrid)).2.solarDataSets
      = (startState oneCellGrid).solarDataSets ∧
    (∀ i j, cellOf (callback literalValue 0 0 0 notFoundChunk
        (startState oneCellGrid)).2.solarDataSets i j
      = cellOf (startState oneCellGrid).solarDataSets i j) :=
  ⟨by decide,
    C7_failed_callback_frame literalValue 0 0 0 notFoundChunk (startState oneCellGrid)
      (by decide)⟩

/-- C8: on the final chunk of a completed HTTP 200 response, when the text
accumulated so far followed by the bytes of the chunk is empty or `getPosVelo`
returns `false` on it, the callback returns `true`, adds one to
`requestCompletedCount`, leaves `requestErrorCount` and leaves the grid, hence
the position and velocity of the cell of the request, as they were. -/
theorem C8_final_chunk_without_vectors {α : Type} (atof : List Char → α) (zero : α)
    (setIdx cbodyIdx : Nat) (ch : Chunk) (st : CallbackState α)
    (hok : ch.completed = true ∧ ch.response_code = 200) (hfinal : ch.is_final0 = true)
    (hfail : st.result_text ++ ch.data0.getD [] = [] ∨
      (getPosVelo atof zero (st.result_text ++ ch.data0.getD [])).1 = false) :
    (callback atof zero setIdx cbodyIdx ch st).1 = true ∧
    (callback atof zero setIdx cbodyIdx ch st).2.solarDataSets = st.solarDataSets ∧
    cellOf (callback atof zero setIdx cbodyIdx ch st).2.solarDataSets setIdx cbodyIdx
      = cellOf st.solarDataSets setIdx cbodyIdx ∧
    (callback atof zero setIdx cbodyIdx ch st).2.requestCompletedCount
      = uadd st.requestCompletedCount 1 ∧
    (st.requestCompletedCount + 1 < UWord →
      (callback atof zero setIdx cbodyIdx ch st).2.requestCompletedCount
        = st.requestCompletedCount + 1) ∧
    (callback atof zero setIdx cbodyIdx ch st).2.requestErrorCount = st.requestErrorCount ∧
    (callback atof zero setIdx cbodyIdx ch st).2.result_text
      = st.result_text ++ ch.data0.getD [] := by
  have hchok : ch.ok = true := by simp [Chunk.ok, hok.1, hok.2]
  have hcb : callback atof zero setIdx cbodyIdx ch st
      = (true, { st with result_text := st.result_text ++ ch.data0.getD [],
                         requestCompletedCount := uadd st.requestCompletedCount 1 }) := by
    simp only [callback, hchok, hfinal, Bool.not_true, Bool.false_eq_true, if_false, if_true,
      append_chunk]
    rcases hfail with hempty | hparse
    · simp [hempty]
    · simp [hparse]
  rw [hcb]
  exact ⟨rfl, rfl, rfl, rfl, fun h => uadd_of_lt h, rfl, rfl⟩

/-- C8 at a concrete input: the final chunk of a 200 response whose text has a
position block and no velocity block. -/
theorem C8_final_chunk_without_vectors_witness :
    (positionOnlyChunk.completed = true ∧ positionOnlyChunk.response_code = 200) ∧
    positionOnlyChunk.is_final0 = true ∧
    ((startState oneCellGrid).result_text ++ positionOnlyChunk.data0.getD [] = [] ∨
      (getPosVelo literalValue 0
        ((startState oneCellGrid).result_text ++ positionOnlyChunk.data0.getD [])).1 = false) ∧
    (callback literalValue 0 0 0 positionOnlyChunk (startState oneCellGrid)).1 = true ∧
    (callback literalValue 0 0 0 positionOnlyChunk (startState oneCellGrid)).2.solarDataSets
      = (startState oneCellGrid).solarDataSets ∧
    cellOf (callback literalValue 0 0 0 positionOnlyChunk
        (startState oneCellGrid)).2.solarDataSets 0 0
      = cellOf (startState oneCellGrid).solarDataSets 0 0 ∧
    (callback literalValue 0 0 0 positionOnlyChunk
        (startState oneCellGrid)).2.requestCompletedCount
      = uadd (startState oneCellGrid).requestCompletedCount 1 ∧
    ((startState oneCellGrid).requestCompletedCount + 1 < UWord →
      (callback literalValue 0 0 0 positionOnlyChunk
          (startState oneCellGrid)).2.requestCompletedCount
        = (startState oneCellGrid).requestCompletedCount + 1) ∧
    (callback literalValue 0 0 0 positionOnlyChunk
        (startState oneCellGrid)).2.requestErrorCount
      = (startState oneCellGrid).requestErrorCount ∧
    (callback literalValue 0 0 0 positionOnlyChunk (startState oneCellGrid)).2.result_text
      = (startState oneCellGrid).result_text ++ positionOnlyChunk.data0.getD [] :=
  ⟨by decide, by decide, Or.inr (by decide),
    C8_final_chunk_without_vectors literalValue 0 0 0 positionOnlyChunk
      (startState oneCellGrid) (by decide) (by decide) (Or.inr (by decide))⟩

/-- C9: for every identifier `objectID` of decimal digits and every date text
`objectDate`, `getCommand` ends (three tests of its loop suffice) and returns
the template with `objectID` in the place of `OBJECT_ID` and `objectDate` in
the place of both `OBJECT_DATE`, the rest of the template unchanged; the result
is not empty.  The template has one `OBJECT_ID` and two `OBJECT_DATE`. -/
theorem C9_getCommand_substitutes (objectID objectDate : List Char)
    (hid : ∀ c ∈ objectID, c.isDigit = true) (fuel : Nat) (hfuel : 3 ≤ fuel) :
    HorizonCmdTemplate
      = "!$$SOF\nCOMMAND='".toList ++ ObjectIdMark
        ++ "'\nTABLE_TYPE='Vector'\nCENTER='@010'\nREF_PLANE='Ecliptic'\nSTART_TIME='".toList
        ++ ObjectDateMark ++ " 00:00:00'\nSTOP_TIME='".toList
        ++ ObjectDateMark ++ " 00:00:01'\n".toList ∧
    occurrences ObjectIdMark HorizonCmdTemplate = 1 ∧
    occurrences ObjectDateMark HorizonCmdTemplate = 2 ∧
    getCommand fuel objectID objectDate
      = some ("!$$SOF\nCOMMAND='".toList ++ objectID
        ++ "'\nTABLE_TYPE='Vector'\nCENTER='@010'\nREF_PLANE='Ecliptic'\nSTART_TIME='".toList
        ++ objectDate ++ " 00:00:00'\nSTOP_TIME='".toList
        ++ objectDate ++ " 00:00:01'\n".toList) ∧
    getCommand fuel objectID objectDate ≠ some [] := by
  obtain ⟨f, rfl⟩ : ∃ f, fuel = f + 3 := ⟨fuel - 3, by omega⟩
  have hres : getCommand (f + 3) objectID objectDate
      = some ("!$$SOF\nCOMMAND='".toList ++ objectID
        ++ "'\nTABLE_TYPE='Vector'\nCENTER='@010'\nREF_PLANE='Ecliptic'\nSTART_TIME='".toList
        ++ objectDate ++ " 00:00:00'\nSTOP_TIME='".toList
        ++ objectDate ++ " 00:00:01'\n".toList) := by
    have hfindId := find_ObjectIdMark
    have hrepl : replace HorizonCmdTemplate 16 ObjectIdMark.length objectID
        = "!$$SOF\nCOMMAND='".toList ++ objectID
          ++ ("'\nTABLE_TYPE='Vector'\nCENTER='@010'\nREF_PLANE='Ecliptic'\nSTART_TIME='".toList
          ++ ObjectDateMark ++ " 00:00:00'\nSTOP_TIME='".toList
          ++ ObjectDateMark ++ " 00:00:01'\n".toList) := by
      have ht : HorizonCmdTemplate = "!$$SOF\nCOMMAND='".toList ++ ObjectIdMark
          ++ ("'\nTABLE_TYPE='Vector'\nCENTER='@010'\nREF_PLANE='Ecliptic'\nSTART_TIME='".toList
          ++ ObjectDateMark ++ " 00:00:00'\nSTOP_TIME='".toList
          ++ ObjectDateMark ++ " 00:00:01'\n".toList) := by
        simp only [HorizonCmdTemplate, List.append_assoc]
      have hl : (16 : Nat) = "!$$SOF\nCOMMAND='".toList.length := by decide
      rw [ht, hl, replace_at]
    have hA : Skippable "!$$SOF\nCOMMAND='".toList := skippable_of_clearOf (by decide)
    have hI : Skippable objectID := skippable_of_clearOf (clearOf_digits objectID hid)
    have hB : Skippable
        "'\nTABLE_TYPE='Vector'\nCENTER='@010'\nREF_PLANE='Ecliptic'\nSTART_TIME='".toList :=
      skippable_of_clearOf (by decide)
    have hC : Skippable " 00:00:00'\nSTOP_TIME='".toList := skippable_of_clearOf (by decide)
    have hD : findIn ObjectDateMark " 00:00:01'\n".toList = none := by decide
    have s1 := replaceDates_step objectDate []
      ("!$$SOF\nCOMMAND='".toList ++ objectID
        ++ "'\nTABLE_TYPE='Vector'\nCENTER='@010'\nREF_PLANE='Ecliptic'\nSTART_TIME='".toList)
      (" 00:00:00'\nSTOP_TIME='".toList ++ ObjectDateMark ++ " 00:00:01'\n".toList)
      (f + 2) (skippable_append (skippable_append hA hI) hB)
    have s2 := replaceDates_step objectDate
      ([] ++ ("!$$SOF\nCOMMAND='".toList ++ objectID
        ++ "'\nTABLE_TYPE='Vector'\nCENTER='@010'\nREF_PLANE='Ecliptic'\nSTART_TIME='".toList)
        ++ objectDate)
      " 00:00:00'\nSTOP_TIME='".toList " 00:00:01'\n".toList (f + 1) hC
    have s3 := replaceDates_done objectDate
      ([] ++ ("!$$SOF\nCOMMAND='".toList ++ objectID
        ++ "'\nTABLE_TYPE='Vector'\nCENTER='@010'\nREF_PLANE='Ecliptic'\nSTART_TIME='".toList)
        ++ objectDate ++ " 00:00:00'\nSTOP_TIME='".toList ++ objectDate)
      " 00:00:01'\n".toList f hD
    simp only [getCommand, hfindId, hrepl]
    simp only [List.nil_append, List.length_nil, List.append_assoc] at s1 s2 s3 ⊢
    rw [s1, s2, s3]
  refine ⟨rfl, occurrences_ObjectIdMark, occurrences_ObjectDateMark, hres, ?_⟩
  rw [hres]
  simp

/-- C9 at a concrete input: the body 199 on 2020-01-01, with fuel 3. -/
theorem C9_getCommand_substitutes_witness :
    (∀ c ∈ "199".toList, c.isDigit = true) ∧ 3 ≤ 3 ∧
    HorizonCmdTemplate
      = "!$$SOF\nCOMMAND='".toList ++ ObjectIdMark
        ++ "'\nTABLE_TYPE='Vector'\nCENTER='@010'\nREF_PLANE='Ecliptic'\nSTART_TIME='".toList
        ++ ObjectDateMark ++ " 00:00:00'\nSTOP_TIME='".toList
        ++ ObjectDateMark ++ " 00:00:01'\n".toList ∧
    occurrences ObjectIdMark HorizonCmdTemplate = 1 ∧
    occurrences ObjectDateMark HorizonCmdTemplate = 2 ∧
    getCommand 3 "199".toList "2020-01-01".toList
      = some ("!$$SOF\nCOMMAND='".toList ++ "199".toList
        ++ "'\nTABLE_TYPE='Vector'\nCENTER='@010'\nREF_PLANE='Ecliptic'\nSTART_TIME='".toList
        ++ "2020-01-01".toList ++ " 00:00:00'\nSTOP_TIME='".toList
        ++ "2020-01-01".toList ++ " 00:00:01'\n".toList) ∧
    getCommand 3 "199".toList "2020-01-01".toList ≠ some [] :=
  ⟨by decide, by decide,
    C9_getCommand_substitutes "199".toList "2020-01-01".toList (by decide) 3 (by decide)⟩

/-- C10 fails on the code for negative arguments: with the arguments
`2020 2020 -1` the body count is stored as `4294967295`, `cbody_max` is
`4294967295 ≥ cbody_min`, and `main` does not return 1 but goes on with the
bodies `1 .. 4294967295`, that is with `request_count = 4294967295`; likewise
`1 -1 1`, where `yearMax < yearMin`, goes on with the years `1 .. 4294967295`. -/
theorem C10_negative_arguments_accepted :
    mainArgs 2020 2020 (-1)
      = ArgCheck.proceed
          { year_min := 2020, year_max := 2020, cbody_min := 1, cbody_max := 4294967295 } ∧
    request_count { year_min := 2020, year_max := 2020, cbody_min := 1,
                    cbody_max := 4294967295 } = 4294967295 ∧
    mainArgs 1 (-1) 1
      = ArgCheck.proceed
          { year_min := 1, year_max := 4294967295, cbody_min := 1, cbody_max := 1 } := by
  refine ⟨by decide, by decide, by decide⟩

set_option maxRecDepth 100000 in
/-- C11 fails on the code with the barycenter flag: for the year 2020 and the
body index 1 the identifier stored in the cell is `1`, while `objectID` is
`199` and the command of the request reads `COMMAND='199'`, the same command as
without the flag, where the cell stores `199`; for every body index from 1 to 9
the number `objectID` spells is not the identifier the cell stores with the
flag. -/
theorem C11_barycenter_request_for_body_id :
    (cellRequest 3 true 2020 1).id = 1 ∧
    (cellRequest 3 true 2020 1).objectID = "199".toList ∧
    (cellRequest 3 true 2020 1).cmd
      = some ("!$$SOF\nCOMMAND='199'\nTABLE_TYPE='Vector'\nCENTER='@010'\n"
          ++ "REF_PLANE='Ecliptic'\nSTART_TIME='2020-01-01 00:00:00'\n"
          ++ "STOP_TIME='2020-01-01 00:00:01'\n").toList ∧
    digitsValue (cellRequest 3 true 2020 1).objectID ≠ (cellRequest 3 true 2020 1).id ∧
    (cellRequest 3 false 2020 1).id = 199 ∧
    (cellRequest 3 false 2020 1).cmd = (cellRequest 3 true 2020 1).cmd ∧
    (List.range' 1 9).all (fun planetIdx =>
      decide (digitsValue (cellRequest 3 true 2020 planetIdx).objectID
        ≠ (cellRequest 3 true 2020 planetIdx).id)) = true := by
  refine ⟨by decide, by decide, by decide, by decide, by decide, rfl, by decide⟩

end HorizonFetch
